import Mathlib

/-!
A verification development for the Bazel-dialect Starlark layer
(`starlark-go-bazel`): a shallow embedding, in Lean, of the repository's
label parser, depset (nested set), provider, rule-class, package
registration, module loader and `glob` machinery, together with theorems
that settle the specification's claims about those components.

Conventions of the embedding:
* Go machine integers that matter for overflow are modelled as `Nat` with
  explicit `% 2^32`; all other integers are `Int`/`Nat`.
* Fallible Go functions (`(T, error)`) are modelled as `Except String T`
  (or a structured error type where the error's fields matter), with the
  `fmt.Errorf` message text reproduced.
* Go maps used as dictionaries are modelled as association lists whose
  insert mirrors the source's check-then-store sequence; Go slices are
  Lean lists.
* The host Starlark evaluator (`go.starlark.net`) is external to the
  repository: where a repository function receives values produced by the
  host (argument tuples, kwarg lists, the globals of an executed file),
  the embedding takes those values as explicit parameters.
-/

/-! ## Starlark values

`SVal` models the `starlark.Value` shapes that the repository's code
inspects: `NoneType`, `bool`, `int`, `string`, `*starlark.List` and
`*starlark.Dict`.  The list and dict payloads are carried so that
element-wise equality (`starlark.Equal`) and rendering can be modelled;
the repository itself only ever matches on the constructor or walks
dict items. -/

inductive SVal where
  | noneV
  | boolV (b : Bool)
  | intV (n : Int)
  | strV (s : String)
  | listV (xs : List SVal)
  | dictV (ps : List (SVal × SVal))

/- `starlark.Equal`: structural equality on the modelled value shapes
(different types are unequal; lists and dicts compare element-wise). -/
mutual
def svalEq : SVal → SVal → Bool
  | .noneV, .noneV => true
  | .boolV a, .boolV b => a == b
  | .intV a, .intV b => a == b
  | .strV a, .strV b => a == b
  | .listV xs, .listV ys => svalListEq xs ys
  | .dictV ps, .dictV qs => svalPairsEq ps qs
  | _, _ => false

def svalListEq : List SVal → List SVal → Bool
  | [], [] => true
  | x :: xs, y :: ys => svalEq x y && svalListEq xs ys
  | _, _ => false

def svalPairsEq : List (SVal × SVal) → List (SVal × SVal) → Bool
  | [], [] => true
  | (k, v) :: xs, (k2, v2) :: ys => svalEq k k2 && svalEq v v2 && svalPairsEq xs ys
  | _, _ => false
end

mutual
theorem svalEq_sound : ∀ a b : SVal, svalEq a b = true → a = b
  | .noneV, .noneV, _ => rfl
  | .boolV a, .boolV b, h => by simp [svalEq] at h; simp [h]
  | .intV a, .intV b, h => by simp [svalEq] at h; simp [h]
  | .strV a, .strV b, h => by simp [svalEq] at h; simp [h]
  | .listV xs, .listV ys, h => by
      simp only [svalEq] at h
      rw [svalListEq_sound xs ys h]
  | .dictV ps, .dictV qs, h => by
      simp only [svalEq] at h
      rw [svalPairsEq_sound ps qs h]

theorem svalListEq_sound : ∀ xs ys : List SVal, svalListEq xs ys = true → xs = ys
  | [], [], _ => rfl
  | x :: xs, y :: ys, h => by
      simp only [svalListEq, Bool.and_eq_true] at h
      rw [svalEq_sound x y h.1, svalListEq_sound xs ys h.2]
  | [], _ :: _, h => by simp [svalListEq] at h
  | _ :: _, [], h => by simp [svalListEq] at h

theorem svalPairsEq_sound : ∀ ps qs : List (SVal × SVal), svalPairsEq ps qs = true → ps = qs
  | [], [], _ => rfl
  | (k, v) :: xs, (k2, v2) :: ys, h => by
      simp only [svalPairsEq, Bool.and_eq_true] at h
      rw [svalEq_sound k k2 h.1.1, svalEq_sound v v2 h.1.2, svalPairsEq_sound xs ys h.2]
  | [], _ :: _, h => by simp [svalPairsEq] at h
  | _ :: _, [], h => by simp [svalPairsEq] at h
end

mutual
theorem svalEq_refl : ∀ a : SVal, svalEq a a = true
  | .noneV => rfl
  | .boolV a => by simp [svalEq]
  | .intV a => by simp [svalEq]
  | .strV a => by simp [svalEq]
  | .listV xs => by simp only [svalEq]; exact svalListEq_refl xs
  | .dictV ps => by simp only [svalEq]; exact svalPairsEq_refl ps

theorem svalListEq_refl : ∀ xs : List SVal, svalListEq xs xs = true
  | [] => rfl
  | x :: xs => by
      simp only [svalListEq, Bool.and_eq_true]
      exact ⟨svalEq_refl x, svalListEq_refl xs⟩

theorem svalPairsEq_refl : ∀ ps : List (SVal × SVal), svalPairsEq ps ps = true
  | [] => rfl
  | (k, v) :: xs => by
      simp only [svalPairsEq, Bool.and_eq_true]
      exact ⟨⟨svalEq_refl k, svalEq_refl v⟩, svalPairsEq_refl xs⟩
end

instance : DecidableEq SVal := fun a b =>
  if h : svalEq a b = true then .isTrue (svalEq_sound a b h)
  else .isFalse (fun he => h (he ▸ svalEq_refl a))

theorem svalEq_iff_eq (a b : SVal) : svalEq a b = true ↔ a = b :=
  ⟨svalEq_sound a b, fun h => h ▸ svalEq_refl a⟩

/-- `Value.Type()` of the host evaluator for the modelled shapes. -/
def SVal.typeName : SVal → String
  | .noneV => "NoneType"
  | .boolV _ => "bool"
  | .intV _ => "int"
  | .strV _ => "string"
  | .listV _ => "list"
  | .dictV _ => "dict"

/- `Value.String()` of the host evaluator (the rendering used by the
depset dedup fallback); reproduced to the extent the repository relies
on it, namely that equal values render equally. -/
mutual
def SVal.render : SVal → String
  | .noneV => "None"
  | .boolV true => "True"
  | .boolV false => "False"
  | .intV n => toString n
  | .strV s => "\"" ++ s ++ "\""
  | .listV xs => "[" ++ SVal.renderList xs ++ "]"
  | .dictV ps => "\x7b" ++ SVal.renderPairs ps ++ "\x7d"

def SVal.renderList : List SVal → String
  | [] => ""
  | [x] => SVal.render x
  | x :: xs => SVal.render x ++ ", " ++ SVal.renderList xs

def SVal.renderPairs : List (SVal × SVal) → String
  | [] => ""
  | [(k, v)] => SVal.render k ++ ": " ++ SVal.render v
  | (k, v) :: xs => SVal.render k ++ ": " ++ SVal.render v ++ ", " ++ SVal.renderPairs xs
end

/-- `hashString` (depset.go): `h = h*31 + c` over the characters, in a
Go `uint32`. -/
def hashString (s : String) : Nat :=
  s.toList.foldl (fun h c => (h * 31 + c.toNat) % 4294967296) 0

/-- `Value.Hash()` of the host evaluator: `None`, `bool`, `int` and
`string` are hashable, `list` and `dict` are not (they return an error).
The concrete hash numbers of the host are irrelevant to the repository's
behaviour (collisions are resolved by equality), so a simple stand-in
function is used for the hashable shapes. -/
def SVal.hash : SVal → Option Nat
  | .noneV => some 0
  | .boolV b => some (if b then 1 else 2)
  | .intV n => some (n.natAbs % 4294967296)
  | .strV s => some (hashString s)
  | .listV _ => none
  | .dictV _ => none

/-- The hash used by `Depset.alreadySeen`: the value's own hash, or the
stable string hash of its rendering when the value is unhashable. -/
def hashKey (v : SVal) : Nat :=
  match v.hash with
  | some h => h
  | none => hashString v.render

/-! ## Depsets (`src/unnamed/part_009`, file `depset.go`)

`Order`, `Depset`, `NewDepset` and the flatten (`ToList`) machinery,
translated from the Go source.  Because Lean's nested-inductive support
is limited, the Go slice `transitive []*Depset` is carried as the
isomorphic list type `DepsetList`. -/

inductive Order where
  | default
  | postorder
  | preorder
  | topological
deriving DecidableEq

/-- `Order.String()` (the Starlark name of the order). -/
def Order.name : Order → String
  | .default => "default"
  | .postorder => "postorder"
  | .preorder => "preorder"
  | .topological => "topological"

/-- `ParseOrder`: parse a Starlark order string. -/
def ParseOrder (s : String) : Except String Order :=
  if s = "default" then .ok .default
  else if s = "postorder" then .ok .postorder
  else if s = "preorder" then .ok .preorder
  else if s = "topological" then .ok .topological
  else .error ("Invalid order: " ++ s)

/-- `Order.IsCompatible`: two orders can be merged iff they are equal or
one of them is the default order. -/
def Order.IsCompatible (o other : Order) : Bool :=
  o == other || o == .default || other == .default

mutual
inductive Depset where
  | mk (order : Order) (direct : List SVal) (transitive : DepsetList) (elemType : String)
inductive DepsetList where
  | nil
  | cons (hd : Depset) (tl : DepsetList)
end

def Depset.order : Depset → Order
  | .mk o _ _ _ => o

def Depset.direct : Depset → List SVal
  | .mk _ d _ _ => d

def Depset.transitive : Depset → DepsetList
  | .mk _ _ t _ => t

def Depset.elemType : Depset → String
  | .mk _ _ _ e => e

/-- The transitive children as a plain Lean list (for statements). -/
def DepsetList.toListD : DepsetList → List Depset
  | .nil => []
  | .cons d tl => d :: DepsetList.toListD tl

/- `Depset.isEmpty`: no direct elements and all transitive children
empty. -/
mutual
def Depset.isEmpty : Depset → Bool
  | .mk _ direct ts _ => if direct.length > 0 then false else DepsetList.allEmpty ts
def DepsetList.allEmpty : DepsetList → Bool
  | .nil => true
  | .cons t tl => if !t.isEmpty then false else DepsetList.allEmpty tl
end

/-- `Depset.checkAndSetType`: reject `list`/`dict` elements, then unify
the element's type name with the depset's element type (threaded here as
the `et` argument, standing for the mutable `d.elemType`). -/
def checkAndSetType (et : String) (elem : SVal) : Except String String :=
  match elem with
  | .listV _ => .error "depsets cannot contain items of type 'list'"
  | .dictV _ => .error "depsets cannot contain items of type 'dict'"
  | _ =>
    let elemType := elem.typeName
    if et = "" then .ok elemType
    else if et ≠ elemType then
      .error ("cannot add an item of type '" ++ elemType ++ "' to a depset of '" ++ et ++ "'")
    else .ok et

/-- The transitive-set loop of `NewDepset`: for each non-empty child,
check order compatibility, then unify the element type. -/
def checkTransitive (order : Order) : String → DepsetList → Except String String
  | et, .nil => .ok et
  | et, .cons t tl =>
    if !t.isEmpty then
      if !(order.IsCompatible t.order) then
        .error ("Order '" ++ order.name ++ "' is incompatible with order '" ++ t.order.name ++ "'")
      else if et = "" then checkTransitive order t.elemType tl
      else if t.elemType ≠ "" && et ≠ t.elemType then
        .error ("cannot add an item of type '" ++ t.elemType ++ "' to a depset of '" ++ et ++ "'")
      else checkTransitive order et tl
    else checkTransitive order et tl

/-- `NewDepset`: validate the direct elements and the transitive
children, computing the element type, and build the (immutable)
depset. -/
def NewDepset (order : Order) (direct : List SVal) (transitive : DepsetList) :
    Except String Depset := do
  let et ← direct.foldlM checkAndSetType ""
  let et2 ← checkTransitive order et transitive
  .ok (Depset.mk order direct transitive et2)

/-! ### Flatten (`Depset.ToList`) -/

/-- The seen-set of `Depset.ToList`: the Go map
`seen map[uint32][]starlark.Value` (hash → values with that hash),
modelled as an association list with distinct keys. -/
abbrev SeenMap := List (Nat × List SVal)

/-- `seen[h]` (the empty bucket when the key is absent). -/
def bucketGet (m : SeenMap) (h : Nat) : List SVal :=
  match m with
  | [] => []
  | (k, vs) :: tl => if k = h then vs else bucketGet tl h

/-- `seen[h] = append(seen[h], elem)`. -/
def bucketAdd (m : SeenMap) (h : Nat) (v : SVal) : SeenMap :=
  match m with
  | [] => [(h, [v])]
  | (k, vs) :: tl => if k = h then (k, vs ++ [v]) :: tl else (k, vs) :: bucketAdd tl h v

/-- `Depset.alreadySeen`: look the element up in its hash bucket by
equality; record it when absent.  Returns the `seen?` answer and the
updated seen-set (the Go method mutates the map in place). -/
def alreadySeen (m : SeenMap) (elem : SVal) : Bool × SeenMap :=
  let h := hashKey elem
  if (bucketGet m h).any (fun v => svalEq v elem) then (true, m)
  else (false, bucketAdd m h elem)

/-- `Depset.addDirect`: append the unseen direct elements to the
result. -/
def addDirect (direct : List SVal) (m : SeenMap) (acc : List SVal) : SeenMap × List SVal :=
  match direct with
  | [] => (m, acc)
  | e :: rest =>
    match alreadySeen m e with
    | (true, m1) => addDirect rest m1 acc
    | (false, m1) => addDirect rest m1 (acc ++ [e])

/- `Depset.walk` and `Depset.addTransitive`: the depth-first traversal,
driven by the root's order (`preorder` visits direct elements first,
every other order visits the transitive children first). -/
mutual
def Depset.walk : Depset → Order → SeenMap → List SVal → SeenMap × List SVal
  | .mk _ direct ts _, order, m, acc =>
    if order = .preorder then
      match addDirect direct m acc with
      | (m1, a1) => DepsetList.addTransitive ts order m1 a1
    else
      match DepsetList.addTransitive ts order m acc with
      | (m1, a1) => addDirect direct m1 a1
def DepsetList.addTransitive : DepsetList → Order → SeenMap → List SVal → SeenMap × List SVal
  | .nil, _, m, acc => (m, acc)
  | .cons t tl, order, m, acc =>
    match t.walk order m acc with
    | (m1, a1) => DepsetList.addTransitive tl order m1 a1
end

/-- `Depset.ToList`: flatten with the depset's own order, then reverse
the result for the topological order. -/
def Depset.ToList (d : Depset) : List SVal :=
  match d.walk d.order [] [] with
  | (_, result) => if d.order = .topological then result.reverse else result

/-! ### The flatten specification (spec §4.3, for the refinement claim)

The following definitions follow the specification's words, not the
source: a raw order-driven traversal with duplicates, first-appearance
deduplication by element equality, and reversal for the topological
order.  The refinement theorem compares `Depset.ToList` against them. -/

mutual
def specTraverse : Order → Depset → List SVal
  | order, .mk _ direct ts _ =>
    if order = .preorder then direct ++ specTraverseList order ts
    else specTraverseList order ts ++ direct
def specTraverseList : Order → DepsetList → List SVal
  | _, .nil => []
  | order, .cons t tl => specTraverse order t ++ specTraverseList order tl
end

/-- First-appearance-wins deduplication by element equality (the
accumulator doubles as the set of elements already kept). -/
def dedupGo (acc : List SVal) : List SVal → List SVal
  | [] => acc
  | e :: rest =>
    if acc.any (fun v => svalEq v e) then dedupGo acc rest
    else dedupGo (acc ++ [e]) rest

def specDedup (l : List SVal) : List SVal := dedupGo [] l

/-- The flatten sequence as the specification describes it: preorder
visits direct elements before children, postorder and default visit
children first, topological is the postorder traversal reversed;
duplicates are removed globally, first appearance winning. -/
def specToList (d : Depset) : List SVal :=
  if d.order = .topological then (specDedup (specTraverse d.order d)).reverse
  else specDedup (specTraverse d.order d)

/-! ### Refinement: the hash-bucketed walk equals the specified dedup -/

/-- The walk restricted to a flat list of elements (the common shape of
`addDirect` steps). -/
def dedupHashGo (m : SeenMap) (acc : List SVal) : List SVal → SeenMap × List SVal
  | [] => (m, acc)
  | e :: rest =>
    match alreadySeen m e with
    | (true, m1) => dedupHashGo m1 acc rest
    | (false, m1) => dedupHashGo m1 (acc ++ [e]) rest


/-! ## Providers (`src/unnamed/part_009` provider file, `src/unnamed/part_006`)

`Provider`, `ProviderInstance`, the provider call path with and without
an `init` callback, the raw constructor, and the two `provider()`
builtins of the repository (the `builtins` package's and the `eval`
package's). -/

/-- An `init` callback (an arbitrary user-supplied Starlark callable,
executed by the host evaluator): a function from the positional and
keyword arguments to a result value or an error. -/
def InitFn := List SVal → List (String × SVal) → Except String SVal

structure Provider where
  name : String
  fields : List String
  doc : String
  init : Option InitFn

/-- `NewProvider`. -/
def NewProvider (name : String) (fields : List String) (doc : String)
    (init : Option InitFn) : Provider :=
  ⟨name, fields, doc, init⟩

/-- Insertion into a Go `map[string]starlark.Value` (`values[key] = v`):
replace the binding when the key is present, append otherwise. -/
def mapSet (m : List (String × SVal)) (k : String) (v : SVal) : List (String × SVal) :=
  match m with
  | [] => [(k, v)]
  | (k2, v2) :: tl => if k2 = k then (k2, v) :: tl else (k2, v2) :: mapSet tl k v

structure ProviderInstance where
  provider : Provider
  values : List (String × SVal)

/-- `NewProviderInstance`. -/
def NewProviderInstance (provider : Provider) (values : List (String × SVal)) :
    ProviderInstance :=
  ⟨provider, values⟩

/-- `ProviderInstance.Type()`: the provider's name. -/
def ProviderInstance.typeName (pi : ProviderInstance) : String := pi.provider.name

/-- `ProviderInstance.Attr`: field access on an instance. -/
def ProviderInstance.attr (pi : ProviderInstance) (name : String) : Except String SVal :=
  match pi.values.lookup name with
  | some v => .ok v
  | none => .error (pi.provider.name ++ " has no attribute \"" ++ name ++ "\"")

/-- The field names an instance carries. -/
def ProviderInstance.keys (pi : ProviderInstance) : List String :=
  pi.values.map Prod.fst

/-- The kwargs loop shared by `Provider.CallInternal` (no-`init` path)
and `rawProviderConstructor.CallInternal`: validate each keyword against
the declared fields — only when fields are declared (non-empty) — and
store it. -/
def pkwStep (p : Provider) (values : List (String × SVal)) (kv : String × SVal) :
    Except String (List (String × SVal)) :=
  if p.fields.length > 0 && !(p.fields.contains kv.1) then
    .error (p.name ++ ": unexpected field \"" ++ kv.1 ++ "\"")
  else .ok (mapSet values kv.1 kv.2)

def providerKwargsValues (p : Provider) (kwargs : List (String × SVal)) :
    Except String (List (String × SVal)) :=
  kwargs.foldlM (pkwStep p) []

/-- The dict-conversion loop of the `init` path of
`Provider.CallInternal`: keys must be strings, and are validated against
the declared fields when fields are declared. -/
def pdvStep (p : Provider) (values : List (String × SVal)) (item : SVal × SVal) :
    Except String (List (String × SVal)) :=
  match item.1 with
  | .strV keyStr =>
    if p.fields.length > 0 && !(p.fields.contains keyStr) then
      .error (p.name ++ ": unexpected field \"" ++ keyStr ++ "\"")
    else .ok (mapSet values keyStr item.2)
  | other => .error (p.name ++ ": init returned dict with non-string key: " ++ other.typeName)

def providerDictValues (p : Provider) (items : List (SVal × SVal)) :
    Except String (List (String × SVal)) :=
  items.foldlM (pdvStep p) []

/-- `Provider.CallInternal`: with an `init` callback, route the
positional and keyword arguments through it, require the result to be a
dict and wrap its validated items; without one, accept keyword
arguments only and validate them against the declared fields. -/
def Provider.CallInternal (p : Provider) (args : List SVal)
    (kwargs : List (String × SVal)) : Except String ProviderInstance :=
  match p.init with
  | some initFn =>
    match initFn args kwargs with
    | .error e => .error e
    | .ok result =>
      match result with
      | .dictV items =>
        match providerDictValues p items with
        | .error e => .error e
        | .ok values => .ok ⟨p, values⟩
      | other => .error (p.name ++ ": init must return a dict, got " ++ other.typeName)
  | none =>
    if args.length > 0 then .error (p.name ++ ": unexpected positional arguments")
    else
      match providerKwargsValues p kwargs with
      | .error e => .error e
      | .ok values => .ok ⟨p, values⟩

/-- `rawProviderConstructor`: the value returned alongside a provider
with `init`; wraps the provider. -/
structure RawProviderConstructor where
  provider : Provider

/-- `rawProviderConstructor.CallInternal`: keyword arguments only, the
same field validation, and no `init` involvement. -/
def RawProviderConstructor.CallInternal (r : RawProviderConstructor) (args : List SVal)
    (kwargs : List (String × SVal)) : Except String ProviderInstance :=
  if args.length > 0 then .error (r.provider.name ++ ": unexpected positional arguments")
  else
    match providerKwargsValues r.provider kwargs with
    | .error e => .error e
    | .ok values => .ok (NewProviderInstance r.provider values)

/-- What a `provider(...)` expression evaluates to: the provider alone,
or the `(provider, raw_constructor)` tuple. -/
inductive ProviderResult where
  | single (p : Provider)
  | pair (p : Provider) (raw : RawProviderConstructor)

def ProviderResult.isPair : ProviderResult → Bool
  | .single _ => false
  | .pair _ _ => true

/-- The fields-list branch of the `builtins` package's `provider()`. -/
def parseFieldList (xs : List SVal) : Except String (List String) :=
  xs.foldlM
    (fun acc x =>
      match x with
      | .strV s => .ok (acc ++ [s])
      | other => .error ("provider: fields list must contain strings, got " ++ other.typeName))
    []

/-- The fields-dict branch of the `builtins` package's `provider()`
(keys are the field names, values their documentation). -/
def parseFieldDict (ps : List (SVal × SVal)) : Except String (List String) :=
  ps.foldlM
    (fun acc kv =>
      match kv.1 with
      | .strV k =>
        match kv.2 with
        | .strV _ => .ok (acc ++ [k])
        | other => .error ("provider: fields dict values must be strings, got " ++ other.typeName)
      | other => .error ("provider: fields dict keys must be strings, got " ++ other.typeName))
    []

/-- The `builtins` package's `provider()` builtin (`Provider` in
`src/unnamed/part_006`): parse `doc` and `fields`, build an unnamed
provider, and — when `init` is given — return the
`(provider, raw_constructor)` tuple instead of the provider alone.
The host-level argument unpacking is external; `init` arrives as an
already-checked callable (`Option InitFn`), `doc` and `fields` as the
values supplied (`noneV` when absent).  The source's tuple branch for
`fields` behaves exactly as its list branch and is subsumed by it. -/
def parseProviderDoc (doc : SVal) : Except String String :=
  match doc with
  | .noneV => .ok ""
  | .strV s => .ok s
  | other => .error ("provider: doc must be a string, got " ++ other.typeName)

def parseProviderFields (fields : SVal) : Except String (List String) :=
  match fields with
  | .noneV => .ok []
  | .listV xs => parseFieldList xs
  | .dictV ps => parseFieldDict ps
  | other => .error ("provider: fields must be a list or dict, got " ++ other.typeName)

def builtinsProvider (doc fields : SVal) (init : Option InitFn) :
    Except String ProviderResult :=
  match parseProviderDoc doc with
  | .error e => .error e
  | .ok docStr =>
    match parseProviderFields fields with
    | .error e => .error e
    | .ok fieldList =>
      let provider := NewProvider "" fieldList docStr init
      match init with
      | some _ => .ok (.pair provider ⟨provider⟩)
      | none => .ok (.single provider)

/-- The `eval` package's own `providerBuiltin`
(`src/unnamed/part_007`): parses `doc` (a string), `fields` (an
optional list) and `init`, and returns the provider — alone, whether or
not `init` is present. -/
def evalFieldStrings (xs : List SVal) : Except String (List String) :=
  xs.foldlM
    (fun acc v =>
      match v with
      | SVal.strV s => Except.ok (acc ++ [s])
      | other => Except.error ("provider: fields must be strings, got " ++ other.typeName))
    []

def evalProviderBuiltin (doc : String) (fields : Option (List SVal))
    (init : Option InitFn) : Except String ProviderResult :=
  match (match fields with
         | none => Except.ok []
         | some xs => evalFieldStrings xs) with
  | .error e => .error e
  | .ok fieldNames => .ok (.single (NewProvider "" fieldNames doc init))


/-! ## Rule classes (`src/types/rule_class.go`, `src/types/rule_instance.go`)

The rule schema, the implicit attributes, export (`SetName`) and target
instantiation (`CallInternal`).  Inert configuration fields that no
modelled code path ever reads (`fragments`, `toolchains`, `cfg`,
`exec_groups`, `build_setting`, `parent`, `initializer`, `extendable`,
`subrules`, `exec_compatible_with`, `implicit outputs`) are omitted from
the structure; the implementation callable is carried as an opaque tag,
since none of the modelled paths invoke it. -/

inductive AttrType where
  | string
  | int
  | bool
  | label
  | labelList
  | stringList
  | stringDict
  | output
  | outputList
deriving DecidableEq

structure AttrDescriptor where
  name : String
  type : AttrType
  default : Option SVal
  mandatory : Bool
  doc : String
  allowedFiles : List String
  allowedRules : List String
  configurable : Bool
  nonConfigurable : Bool
  executable : Bool
  singleFile : Bool
  allowEmpty : Bool
  providersReq : List String

/-- A descriptor with only the fields a given site sets (mirroring Go's
zero-valued struct literals). -/
def mkAttr (name : String) (type : AttrType) : AttrDescriptor :=
  ⟨name, type, none, false, "", [], [], false, false, false, false, false, []⟩

structure RuleClass where
  name : String
  exported : Bool
  implementation : String
  attrs : List (String × AttrDescriptor)
  provides : List String
  executable : Bool
  test : Bool
  doc : String
  analysisTest : Bool
  outputToGenfiles : Bool
  dependencyResolutionRule : Bool
  frozen : Bool

structure RuleInstance where
  ruleClass : RuleClass
  name : String
  attrValues : List (String × SVal)

/-- The `if _, exists := rc.attrs[k]; !exists { rc.attrs[k] = d }`
pattern of `addImplicitAttributes`. -/
def attrsInsertIfAbsent (attrs : List (String × AttrDescriptor)) (k : String)
    (d : AttrDescriptor) : List (String × AttrDescriptor) :=
  if (attrs.lookup k).isSome then attrs else attrs ++ [(k, d)]

/-- `addTestAttributes`: `size`, `timeout`, `flaky`, `shard_count`,
`local`, `args`. -/
def addTestAttributes (attrs : List (String × AttrDescriptor)) :
    List (String × AttrDescriptor) :=
  let attrs := attrsInsertIfAbsent attrs "size"
    { mkAttr "size" .string with
        default := some (.strV "medium"), nonConfigurable := true,
        doc := "Test size: small, medium, large, or enormous." }
  let attrs := attrsInsertIfAbsent attrs "timeout"
    { mkAttr "timeout" .string with
        default := some .noneV, nonConfigurable := true,
        doc := "Test timeout: short, moderate, long, or eternal." }
  let attrs := attrsInsertIfAbsent attrs "flaky"
    { mkAttr "flaky" .bool with
        default := some (.boolV false), nonConfigurable := true,
        doc := "If True, test is considered flaky." }
  let attrs := attrsInsertIfAbsent attrs "shard_count"
    { mkAttr "shard_count" .int with
        default := some (.intV (-1)),
        doc := "Number of test shards." }
  let attrs := attrsInsertIfAbsent attrs "local"
    { mkAttr "local" .bool with
        default := some (.boolV false), nonConfigurable := true,
        doc := "If True, test runs locally without sandboxing." }
  attrsInsertIfAbsent attrs "args"
    { mkAttr "args" .stringList with
        default := some (.listV []), allowEmpty := true,
        doc := "Command line arguments to pass to the test." }

/-- `addExecutableAttributes`: `args`, `output_licenses`. -/
def addExecutableAttributes (attrs : List (String × AttrDescriptor)) :
    List (String × AttrDescriptor) :=
  let attrs := attrsInsertIfAbsent attrs "args"
    { mkAttr "args" .stringList with
        default := some (.listV []), allowEmpty := true,
        doc := "Command line arguments to pass when running." }
  attrsInsertIfAbsent attrs "output_licenses"
    { mkAttr "output_licenses" .stringList with
        default := some (.listV []), allowEmpty := true,
        doc := "Licenses for output files." }

/-- `addImplicitAttributes`: the implicit attribute set every rule
carries (`name`, `visibility`, `tags`, `testonly`, `deprecation`,
`features`), plus the test or executable extras. -/
def addImplicitAttributes (attrs : List (String × AttrDescriptor))
    (test executable : Bool) : List (String × AttrDescriptor) :=
  let attrs := attrsInsertIfAbsent attrs "name"
    { mkAttr "name" .string with
        mandatory := true, nonConfigurable := true,
        doc := "A unique name for this target." }
  let attrs := attrsInsertIfAbsent attrs "visibility"
    { mkAttr "visibility" .labelList with
        default := some .noneV, nonConfigurable := true,
        doc := "The visibility of this target." }
  let attrs := attrsInsertIfAbsent attrs "tags"
    { mkAttr "tags" .stringList with
        default := some (.listV []), nonConfigurable := true,
        allowEmpty := true, doc := "Tags for this target." }
  let attrs := attrsInsertIfAbsent attrs "testonly"
    { mkAttr "testonly" .bool with
        default := some (.boolV false), nonConfigurable := true,
        doc := "If True, only test targets can depend on this target." }
  let attrs := attrsInsertIfAbsent attrs "deprecation"
    { mkAttr "deprecation" .string with
        default := some .noneV, nonConfigurable := true,
        doc := "Deprecation message for this target." }
  let attrs := attrsInsertIfAbsent attrs "features"
    { mkAttr "features" .stringList with
        default := some (.listV []), allowEmpty := true,
        doc := "Features to enable for this target." }
  let attrs := if test then addTestAttributes attrs else attrs
  if executable && !test then addExecutableAttributes attrs else attrs

/-- `NewRuleClass`: build the schema — unexported — and add the
implicit attributes (the functional options are passed directly). -/
def NewRuleClass (name : String) (implementation : String)
    (attrs : List (String × AttrDescriptor)) (test executable : Bool)
    (doc : String) : RuleClass :=
  { name := name, exported := false, implementation := implementation,
    attrs := addImplicitAttributes attrs test executable,
    provides := [], executable := executable, test := test, doc := doc,
    analysisTest := false, outputToGenfiles := false,
    dependencyResolutionRule := false, frozen := false }

/-- `RuleClass.SetName`: assign the name and mark the class exported
(nothing else changes — in particular `frozen` is untouched). -/
def RuleClass.SetName (rc : RuleClass) (name : String) : RuleClass :=
  { rc with name := name, exported := true }

/-- `RuleClass.Freeze`. -/
def RuleClass.Freeze (rc : RuleClass) : RuleClass := { rc with frozen := true }

/-- `RuleClass.validateAttrValue`: basic shape validation of an
attribute value against its descriptor.  (The host's `*Label` and tuple
values, which the source also accepts for label- and list-typed
attributes, are not modelled shapes.) -/
def validateAttrValue (attr : AttrDescriptor) (value : SVal) : Except String Unit :=
  match value with
  | .noneV =>
    if attr.mandatory then .error "mandatory attribute cannot be None" else .ok ()
  | _ =>
    match attr.type with
    | .string =>
      match value with
      | .strV _ => .ok ()
      | _ => .error ("expected string, got " ++ value.typeName)
    | .int =>
      match value with
      | .intV _ => .ok ()
      | _ => .error ("expected int, got " ++ value.typeName)
    | .bool =>
      match value with
      | .boolV _ => .ok ()
      | _ => .error ("expected bool, got " ++ value.typeName)
    | .label =>
      match value with
      | .strV _ => .ok ()
      | _ => .error ("expected label (string or Label), got " ++ value.typeName)
    | .labelList | .stringList | .outputList =>
      match value with
      | .listV _ => .ok ()
      | _ => .error ("expected list, got " ++ value.typeName)
    | .stringDict =>
      match value with
      | .dictV _ => .ok ()
      | _ => .error ("expected dict, got " ++ value.typeName)
    | .output =>
      match value with
      | .strV _ => .ok ()
      | _ => .error ("expected string (output name), got " ++ value.typeName)

/-- `RuleClass.CallInternal`: reject positional arguments, require the
class to be exported, validate the supplied keywords, fill mandatory
and defaulted attributes, require a string `name`, and build the
`RuleInstance`. -/
def RuleClass.CallInternal (rc : RuleClass) (args : List SVal)
    (kwargs : List (String × SVal)) : Except String RuleInstance := do
  if args.length > 0 then
    Except.error (rc.name ++ ": unexpected positional arguments")
  else if !rc.exported then
    Except.error "rule has not been exported by a bzl file"
  else
    let attrValues ← kwargs.foldlM
      (fun acc kv =>
        match rc.attrs.lookup kv.1 with
        | none => Except.error (rc.name ++ ": unexpected attribute \"" ++ kv.1 ++ "\"")
        | some attr =>
          match validateAttrValue attr kv.2 with
          | .error e =>
            Except.error (rc.name ++ ": attribute \"" ++ kv.1 ++ "\": " ++ e)
          | .ok _ => Except.ok (mapSet acc kv.1 kv.2))
      []
    let attrValues ← rc.attrs.foldlM
      (fun acc nd =>
        if (kwargs.lookup nd.1).isSome then Except.ok acc
        else if nd.2.mandatory then
          Except.error (rc.name ++ ": missing mandatory attribute \"" ++ nd.1 ++ "\"")
        else
          match nd.2.default with
          | some v => Except.ok (mapSet acc nd.1 v)
          | none => Except.ok acc)
      attrValues
    match attrValues.lookup "name" with
    | none => Except.error (rc.name ++ ": missing mandatory attribute 'name'")
    | some nameVal =>
      match nameVal with
      | .strV nameStr => Except.ok ⟨rc, nameStr, attrValues⟩
      | other =>
        Except.error (rc.name ++ ": attribute 'name' must be a string, got " ++ other.typeName)

/-! ## Character-level string helpers

The Lean core `String` functions (`startsWith`, `splitOn`, …) are
byte-position loops that the kernel cannot evaluate on literals, so the
embedding defines the handful it needs over the character list. -/

/-- `strings.HasPrefix`. -/
def strStartsWith (s pat : String) : Bool :=
  pat.toList.isPrefixOf s.toList

/-- `strings.HasSuffix`. -/
def strEndsWith (s pat : String) : Bool :=
  pat.toList.isSuffixOf s.toList

def splitOnSlashAux : List Char → List Char → List String
  | [], cur => [cur.reverse.asString]
  | c :: cs, cur =>
    if c = '/' then cur.reverse.asString :: splitOnSlashAux cs []
    else splitOnSlashAux cs (c :: cur)

/-- `strings.Split(s, "/")`. -/
def splitOnSlash (s : String) : List String :=
  splitOnSlashAux s.toList []

/-- Byte-wise string comparison (`sort.Strings` order): lexicographic
on the characters. -/
def charListLe : List Char → List Char → Bool
  | [], _ => true
  | _ :: _, [] => false
  | a :: as, b :: bs =>
    if a = b then charListLe as bs else decide (a < b)

def strLe (a b : String) : Bool :=
  charListLe a.toList b.toList

/-! ## BUILD-file packages and the `.bzl` evaluator
(`src/unnamed/part_008`, `src/unnamed/part_007` eval file)

`Package`, target registration, and the `.bzl` evaluation entry point.
The evaluator's thread locals (`Package` in the thread, the fallback
`targets` map) are carried as an explicit `ThreadState`. -/

/-- The last path segment's directory (`filepath.Dir`, for the
slash-separated paths the repository uses): everything before the final
`/`, or `.` when there is none. -/
def dirPath (path : String) : String :=
  match (splitOnSlash path).dropLast with
  | [] => "."
  | segs => String.intercalate "/" segs

/-- `filepath.Rel root dir` to the extent `NewPackage` relies on it:
strip a leading `root ++ "/"`, map `root` itself to `.`. -/
def relPath (root dir : String) : Option String :=
  if dir = root then some "."
  else if strStartsWith dir (root ++ "/") then some (dir.drop (root.length + 1))
  else none

structure Package where
  name : String
  root : String
  buildFile : String
  targets : List (String × RuleInstance)
  defaultVisibility : List String
  defaultTestonly : Bool
  defaultDeprecation : String
  loads : List String

/-- `NewPackage`: derive the package name from the BUILD file's
directory relative to the workspace root; start with no targets. -/
def NewPackage (root buildFile : String) : Package :=
  let dir := dirPath buildFile
  let name :=
    if root ≠ "" && dir ≠ root then
      match relPath root dir with
      | some rel => rel
      | none => dir
    else dir
  let name := if name = "." then "" else name
  { name := name, root := root, buildFile := buildFile, targets := [],
    defaultVisibility := [], defaultTestonly := false,
    defaultDeprecation := "", loads := [] }

/-- `Package.AddTarget`: register a target, failing on a duplicate name
(and, the registration being functional, leaving the package unchanged
in that case). -/
def Package.AddTarget (p : Package) (name : String) (target : RuleInstance) :
    Except String Package :=
  if (p.targets.lookup name).isSome then
    .error ("duplicate target name \"" ++ name ++ "\" in package \"" ++ p.name ++ "\"")
  else .ok { p with targets := p.targets ++ [(name, target)] }

/-- `Package.GetTarget`. -/
def Package.GetTarget (p : Package) (name : String) : Option RuleInstance :=
  p.targets.lookup name

/-- The evaluator thread's registration state: the `Package` thread
local (preferred) and the plain `targets` map fallback. -/
structure ThreadState where
  pkg : Option Package
  targetsLocal : Option (List (String × RuleInstance))

/-- `RegisterTarget`: register into the thread's `Package` when one is
set, else into the `targets` map, else fail. -/
def RegisterTarget (st : ThreadState) (target : RuleInstance) :
    Except String ThreadState :=
  let name := target.name
  match st.pkg with
  | some pkg =>
    match pkg.AddTarget name target with
    | .ok pkg2 => .ok { st with pkg := some pkg2 }
    | .error e => .error e
  | none =>
    match st.targetsLocal with
    | some targets =>
      if (targets.lookup name).isSome then
        .error ("duplicate target name \"" ++ name ++ "\"")
      else .ok { st with targetsLocal := some (targets ++ [(name, target)]) }
    | none => .error "no target registry in thread"

/-- A top-level binding produced by executing a `.bzl` file: plain
values, providers and rule classes are the shapes the claims need. -/
inductive BzlVal where
  | sval (v : SVal)
  | providerV (p : Provider)
  | ruleClassV (rc : RuleClass)

structure BzlResult where
  globals : List (String × BzlVal)

/-- `Evaluator.EvalBzl` (`src/unnamed/part_007`), relative to the host
execution: the host runs the file (`starlark.ExecFile`, external; its
outcome is the `hostResult` parameter) and `EvalBzl` wraps the
resulting globals — unchanged.  No hook walks the globals afterwards:
nothing in `EvalBzl`, the loader's `loadFile`, or anywhere else in the
repository calls `SetName`/`Export` on the values bound at top level,
so a rule class (or provider or aspect) created during the module is
returned exactly as the host left it. -/
def EvalBzl (path : String) (hostResult : Except String (List (String × BzlVal))) :
    Except String BzlResult :=
  match hostResult with
  | .error e => .error ("evaluating " ++ path ++ ": " ++ e)
  | .ok globals => .ok ⟨globals⟩


/-! ## Labels (`src/types/label.go`) -/

/-- First index of `pat` inside `hay` (`strings.Index`). -/
def findSub (hay pat : List Char) : Option Nat :=
  match hay with
  | [] => if pat.isEmpty then some 0 else none
  | _ :: tl =>
    if pat.isPrefixOf hay then some 0
    else (findSub tl pat).map (· + 1)

def substrIndex (s pat : String) : Option Nat :=
  findSub s.toList pat.toList

/-- `strings.Contains`. -/
def containsSub (s pat : String) : Bool :=
  (substrIndex s pat).isSome

/-- Last index of the character `c` (`strings.LastIndex` with a
one-character separator). -/
def lastIdx (cs : List Char) (c : Char) : Option Nat :=
  match cs with
  | [] => none
  | hd :: tl =>
    match lastIdx tl c with
    | some i => some (i + 1)
    | none => if hd = c then some 0 else none

def lastIdxStr (s : String) (c : Char) : Option Nat :=
  lastIdx s.toList c

/-- `s[a:b]` on Go strings (the repository only slices at ASCII
boundaries, so character indexing is byte indexing). -/
def strSlice (s : String) (a b : Nat) : String :=
  ((s.toList.drop a).take (b - a)).asString

/-- `s[a:]`. -/
def strFrom (s : String) (a : Nat) : String :=
  (s.toList.drop a).asString

/-- `s[:b]`. -/
def strUntil (s : String) (b : Nat) : String :=
  (s.toList.take b).asString

structure Label where
  repo : String
  pkg : String
  name : String
  frozen : Bool
deriving DecidableEq

/-- `NewLabel`. -/
def NewLabel (repo pkg name : String) : Label :=
  ⟨repo, pkg, name, false⟩

/-- The package/target split of `ParseLabel`: after `//`, split at the
last `:`; with no colon, the name is the last `/`-segment of the
package (or the whole package). -/
def parseLabelBody (repo s : String) : Label :=
  match lastIdxStr s ':' with
  | some idx => ⟨repo, strUntil s idx, strFrom s (idx + 1), false⟩
  | none =>
    match lastIdxStr s '/' with
    | some idx => ⟨repo, s, strFrom s (idx + 1), false⟩
    | none => ⟨repo, s, s, false⟩

/-- `ParseLabel`: an optional `@repo` prefix (which must be followed by
`//` somewhere), then a mandatory `//`, then the package/target
split.  Neither the target name nor the package path is validated
further. -/
def ParseLabel (s : String) : Except String Label :=
  if strStartsWith s "@" then
    match substrIndex s "//" with
    | none => .error ("invalid label \"" ++ s ++ "\": missing //")
    | some idx =>
      let repo := strSlice s 1 idx
      let rest := strFrom s idx
      -- `rest` starts with `//` by construction of `idx`
      .ok (parseLabelBody repo (strFrom rest 2))
  else if strStartsWith s "//" then
    .ok (parseLabelBody "" (strFrom s 2))
  else
    .error ("invalid label \"" ++ s ++ "\": must start with // or @")

/-- `Label.String()`: the canonical rendering `[@repo]//pkg:name`. -/
def Label.render (l : Label) : String :=
  (if l.repo ≠ "" then "@" ++ l.repo else "") ++ "//" ++ l.pkg ++ ":" ++ l.name

/-- `ParseLabelRelative`: absolute labels go through `ParseLabel`
(filling the current repo for `//…`), `:t` and bare `t` are relative to
the current package. -/
def ParseLabelRelative (s currentRepo currentPkg : String) : Except String Label :=
  if strStartsWith s "@" then ParseLabel s
  else if strStartsWith s "//" then
    match ParseLabel s with
    | .error e => .error e
    | .ok l => .ok (if l.repo = "" then { l with repo := currentRepo } else l)
  else if strStartsWith s ":" then
    .ok ⟨currentRepo, currentPkg, strFrom s 1, false⟩
  else
    .ok ⟨currentRepo, currentPkg, s, false⟩

/-! ## The module loader (`src/loader/loader.go`)

`resolveModule`, the per-label cache and the cycle check of
`BzlFileLoader.Load`.  The concurrency of the cache (the `ready`
channel a second concurrent caller of the same label blocks on) is not
representable in a sequential embedding; the cache is modelled at the
granularity the claims need: an entry is the completed result, and a
`Load` call either reads a hit or computes, stores and returns the
result.  The actual execution of a `.bzl` file (`loadFile`:
`ReadFile` + `starlark.ExecFileOptions`) involves the external host
evaluator and is a parameter. -/

/-- `splitPkgTarget`: split `pkg:target` at the last colon. -/
def splitPkgTarget (s : String) : Except String (String × String) :=
  match lastIdxStr s ':' with
  | none => .error ("invalid label: missing colon in \"" ++ s ++ "\"")
  | some idx => .ok (strUntil s idx, strFrom s (idx + 1))

/-- `filepath.Join` for the clean, relative segments the loader builds
paths from (empty parts dropped). -/
def joinPath (parts : List String) : String :=
  String.intercalate "/" (parts.filter (· ≠ ""))

/-- `resolveModule`: module string → canonical label and filesystem
path, in the context of the current package/repo and the repository
mapping. -/
def resolveModule (repoMapping : List (String × String)) (repoRoot : String)
    (currentPkg currentRepo : String) (module : String) :
    Except String (String × String) := do
  let (repo, pkg, file) ←
    if strStartsWith module "@" then
      match substrIndex module "//" with
      | none => Except.error ("invalid label \"" ++ module ++ "\": missing //")
      | some idx => do
        let repo := strSlice module 1 idx
        let rest := strFrom module (idx + 2)
        let (pkg, file) ← splitPkgTarget rest
        Except.ok (repo, pkg, file)
    else if strStartsWith module "//" then do
      let rest := strFrom module 2
      let (pkg, file) ← splitPkgTarget rest
      Except.ok (currentRepo, pkg, file)
    else if strStartsWith module ":" then
      Except.ok (currentRepo, currentPkg, strFrom module 1)
    else
      Except.ok (currentRepo, currentPkg, module)
  if !(strEndsWith file ".bzl") && !(strEndsWith file ".scl") then
    Except.error ("file must have .bzl or .scl extension, got \"" ++ file ++ "\"")
  else
    let label :=
      if repo ≠ "" then "@" ++ repo ++ "//" ++ pkg ++ ":" ++ file
      else "//" ++ pkg ++ ":" ++ file
    let rootResult :=
      if repo ≠ "" then
        match repoMapping.lookup repo with
        | some mappedRoot => Except.ok mappedRoot
        | none =>
          if repo ≠ "main" then Except.error ("unknown repository \"" ++ repo ++ "\"")
          else Except.ok repoRoot
      else Except.ok repoRoot
    match rootResult with
    | .error e => Except.error e
    | .ok root => Except.ok (label, joinPath [root, pkg, file])

/-- `CycleError`: a circular load; `Stack` carries the ordered load
stack with the repeated label appended. -/
structure CycleError where
  module : String
  stack : List String
deriving DecidableEq

/-- `CycleError.Error()`: `Starlark load cycle: [l1 l2 …]` (Go's `%v`
rendering of the stack slice). -/
def CycleError.message (e : CycleError) : String :=
  "Starlark load cycle: [" ++ String.intercalate " " e.stack ++ "]"

/-- The errors `BzlFileLoader.Load` surfaces: resolution errors
(wrapped `load(%q): …`), cycle errors, and errors of the module's own
execution. -/
inductive LoadErr where
  | resolve (msg : String)
  | cycle (e : CycleError)
  | exec (msg : String)
deriving DecidableEq

/-- A loader globals dictionary (the exported bindings of a module). -/
abbrev Globals := List (String × SVal)

/-- The completed content of a cache entry (`loadEntry` once its
`ready` channel has been closed). -/
structure LoadEntry where
  globals : Globals
  err : Option String
deriving DecidableEq

abbrev LoadCache := List (String × LoadEntry)

/-- `BzlFileLoader.Load`: resolve, check the thread's load stack for a
cycle, then consult the per-label cache, executing and publishing the
module on a miss.  `exec` stands for `loadFile` (read + host
execution under the extended load stack); it receives the label, the
path and the child thread's load stack.  Returns the call's outcome
and the cache afterwards. -/
def loaderLoad (repoMapping : List (String × String)) (repoRoot : String)
    (currentPkg currentRepo : String)
    (exec : String → String → List String → Except String Globals)
    (loadStack : List String) (cache : LoadCache) (module : String) :
    (Except LoadErr Globals) × LoadCache :=
  match resolveModule repoMapping repoRoot currentPkg currentRepo module with
  | .error e => (.error (.resolve ("load(\"" ++ module ++ "\"): " ++ e)), cache)
  | .ok (label, path) =>
    if label ∈ loadStack then
      (.error (.cycle ⟨module, loadStack ++ [label]⟩), cache)
    else
      match cache.lookup label with
      | some entry =>
        match entry.err with
        | some e => (.error (.exec e), cache)
        | none => (.ok entry.globals, cache)
      | none =>
        match exec label path (loadStack ++ [label]) with
        | .error e =>
          (.error (.exec e), cache ++ [(label, ⟨[], some e⟩)])
        | .ok globals =>
          (.ok globals, cache ++ [(label, ⟨globals, none⟩)])

/-! ## `glob` (`src/unnamed/part_001`, `src/unnamed/part_002`)

The BUILD-file `glob` with its `**` handling.  The file system under
the package directory is embedded as a tree (`FsNode`); `filepath.Walk`
becomes a structural traversal emitting the same callback decisions.
Paths relative to the package directory are carried as segment lists
and joined with `/` (the form `filepath.Rel` returns) only at the
`glob` surface.  `filepath.Walk` visits directory entries in name
order; the traversal order is immaterial here because `executeGlob`
collects the matches into a set and `glob` sorts them, so the embedding
walks children in tree order. -/

/-- `filepath.Match` for the patterns the repository can reach:
`*` (any run of non-separator characters — basenames contain no
separator), `?` (any one character) and literal characters.
(Character-class patterns `[…]` are not modelled.)  `*` consumes an
arbitrary prefix, expressed through the suffix list of the name. -/
def suffixes : List Char → List (List Char)
  | [] => [[]]
  | c :: cs => (c :: cs) :: suffixes cs

def globMatch : List Char → List Char → Bool
  | [], [] => true
  | [], _ :: _ => false
  | '*' :: ps, cs => (suffixes cs).any (fun t => globMatch ps t)
  | '?' :: ps, _ :: cs => globMatch ps cs
  | '?' :: _, [] => false
  | p :: ps, c :: cs => p == c && globMatch ps cs
  | _ :: _, [] => false

/-- A file-system entry: a plain file or a directory with its
entries. -/
inductive FsNode where
  | file (name : String)
  | dir (name : String) (children : List FsNode)

def FsNode.name : FsNode → String
  | .file n => n
  | .dir n _ => n

def FsNode.isDir : FsNode → Bool
  | .file _ => false
  | .dir _ _ => true

def FsNode.children : FsNode → List FsNode
  | .file _ => []
  | .dir _ cs => cs

/-- `DefaultBuildFileLocator.HasBuildFile`: the directory contains an
entry named `BUILD.bazel` or `BUILD`. -/
def hasBuildEntry (children : List FsNode) : Bool :=
  children.any (fun c => c.name == "BUILD.bazel" || c.name == "BUILD")

/- Descend to the node at a relative segment path. -/
mutual
def findNode : FsNode → List String → Option FsNode
  | n, [] => some n
  | .file _, _ :: _ => none
  | .dir _ children, seg :: rest => findNodeList children seg rest
def findNodeList : List FsNode → String → List String → Option FsNode
  | [], _, _ => none
  | c :: cs, seg, rest =>
    if c.name = seg then findNode c rest else findNodeList cs seg rest
end

def namesNodup : List String → Bool
  | [] => true
  | x :: xs => !(xs.contains x) && namesNodup xs

/- Distinct entry names at every directory (what a real file system
guarantees, and what makes a segment path name one node). -/
mutual
def nodeWF : FsNode → Bool
  | .file _ => true
  | .dir _ children => namesNodup (children.map FsNode.name) && childrenWF children
def childrenWF : List FsNode → Bool
  | [] => true
  | c :: cs => nodeWF c && childrenWF cs
end

/-- The per-entry decision of the walk callback in
`matchRecursivePattern`: skip the package directory itself
(`rel == "."`, here `rel = []`), drop directories when directories are
excluded, and apply the `**`-suffix basename match. -/
def walkEmit (rel : List String) (isDir : Bool) (suf : String) (includeDirs : Bool) :
    List (List String) :=
  if rel = [] then []
  else if isDir && !includeDirs then []
  else if suf ≠ "" && !(globMatch suf.toList (rel.getLastD "").toList) then []
  else [rel]

/- The walk of `matchRecursivePattern`, rooted at the node whose
relative path is `startRel`: a directory other than the start that is
itself a subpackage is skipped with its entire subtree
(`filepath.SkipDir`); everything else runs the emit decision and
recurses. -/
mutual
def walkNode (startRel : List String) (suf : String) (includeDirs : Bool) :
    FsNode → List String → List (List String)
  | .file _, rel => walkEmit rel false suf includeDirs
  | .dir _ children, rel =>
    if hasBuildEntry children && rel ≠ startRel then []
    else walkEmit rel true suf includeDirs ++ walkChildren startRel suf includeDirs children rel
def walkChildren (startRel : List String) (suf : String) (includeDirs : Bool) :
    List FsNode → List String → List (List String)
  | [], _ => []
  | c :: cs, rel =>
    walkNode startRel suf includeDirs c (rel ++ [c.name]) ++
      walkChildren startRel suf includeDirs cs rel
end

/-- `strings.SplitN(pattern, "**", 2)`: the part before the first `**`
and, when present, the part after it. -/
def splitAtStars (pattern : String) : String × Option String :=
  match substrIndex pattern "**" with
  | none => (pattern, none)
  | some i => (strUntil pattern i, some (strFrom pattern (i + 2)))

/-- `strings.TrimSuffix(s, "/")`. -/
def removeTrailingSlash (s : String) : String :=
  if strEndsWith s "/" then strUntil s (s.length - 1) else s

/-- `strings.TrimPrefix(s, "/")`. -/
def removeLeadingSlash (s : String) : String :=
  if strStartsWith s "/" then strFrom s 1 else s

/-- `matchRecursivePattern`: split the pattern at the first `**` into
prefix and suffix, root the walk at the prefix directory (a missing
prefix directory yields an empty walk, as `filepath.Walk` then only
reports an error entry, which the callback skips), and collect the
callback's matches. -/
def matchRecursivePattern (tree : FsNode) (pattern : String) (includeDirs : Bool) :
    List (List String) :=
  let (rawPre, rawSuf) := splitAtStars pattern
  let pre := removeTrailingSlash rawPre
  let suf := removeLeadingSlash (rawSuf.getD "")
  let startRel := if pre = "" then [] else splitOnSlash pre
  match findNode tree startRel with
  | none => []
  | some start => walkNode startRel suf includeDirs start startRel

/- `filepath.Glob` on the package tree, for a pattern without `**`:
segment-wise matching from the package directory. -/
mutual
def globCand : FsNode → List String → List (List String × FsNode)
  | n, [] => [([], n)]
  | .file _, _ :: _ => []
  | .dir _ children, seg :: rest => globCandList children seg rest
def globCandList : List FsNode → String → List String → List (List String × FsNode)
  | [], _, _ => []
  | c :: cs, seg, rest =>
    (if globMatch seg.toList c.name.toList then
      (globCand c rest).map (fun pr => (c.name :: pr.1, pr.2))
    else []) ++ globCandList cs seg rest
end

/-- `matchPattern` for a pattern without `**`: glob the pattern under
the package directory, then drop the package directory itself, and
drop directories when directories are excluded or when they are
subpackages. -/
def matchSimplePattern (tree : FsNode) (pattern : String) (includeDirs : Bool) :
    List (List String) :=
  (globCand tree (splitOnSlash pattern)).filterMap
    (fun pr =>
      if pr.2.isDir && !includeDirs then none
      else if pr.2.isDir && hasBuildEntry pr.2.children then none
      else if pr.1 = [] then none
      else some pr.1)

/-- `matchPattern`: route `**` patterns to the recursive walk. -/
def matchPattern (tree : FsNode) (pattern : String) (includeDirs : Bool) :
    List (List String) :=
  if containsSub pattern "**" then matchRecursivePattern tree pattern includeDirs
  else matchSimplePattern tree pattern includeDirs

/-- `validateGlobPattern`: no `?`, no `..`, not absolute. -/
def validateGlobPattern (pattern : String) : Except String Unit :=
  if containsSub pattern "?" then
    .error ("glob pattern '" ++ pattern ++ "' contains forbidden '?' wildcard")
  else if containsSub pattern ".." then
    .error ("glob pattern '" ++ pattern ++ "' contains forbidden '..' reference")
  else if strStartsWith pattern "/" then
    .error ("glob pattern '" ++ pattern ++ "' cannot be absolute")
  else .ok ()

/-- Insert into the match set (`matches[f] = struct{}{}`): membership
semantics, first insertion kept. -/
def setAdd (acc : List String) (x : String) : List String :=
  if acc.contains x then acc else acc ++ [x]

/-- `executeGlob`: validate and union the include patterns, validate
and subtract the exclude patterns.  The `PackageDir` of the context is
the root of `tree`. -/
def executeGlob (tree : FsNode) (includes excludes : List String) (includeDirs : Bool) :
    Except String (List String) := do
  let found ← includes.foldlM
    (fun acc pattern => do
      let _ ← validateGlobPattern pattern
      let matched := (matchPattern tree pattern includeDirs).map
        (String.intercalate "/")
      Except.ok (matched.foldl setAdd acc))
    []
  let found ← excludes.foldlM
    (fun acc pattern => do
      let _ ← validateGlobPattern pattern
      let matched := (matchPattern tree pattern includeDirs).map
        (String.intercalate "/")
      Except.ok (acc.filter (fun f => !(matched.contains f))))
    found
  Except.ok found

/-- `sort.Strings`, as an insertion sort (the source's sort is in-place
and unstable, but the matches are distinct, so the sorted sequence is
the same). -/
def insertStr (x : String) : List String → List String
  | [] => [x]
  | y :: ys => if strLe x y then x :: y :: ys else y :: insertStr x ys

def sortStrings (l : List String) : List String := l.foldr insertStr []

/-- The `glob` builtin (`src/unnamed/part_001`), after argument
unpacking: run the glob, enforce `allow_empty`, sort, and prefix
matches that start with `@` with `:` to disambiguate them from
repository names. -/
def glob (tree : FsNode) (includes excludes : List String)
    (excludeDirectories : Int) (allowEmpty : Bool) : Except String (List String) := do
  let includeDirs := excludeDirectories = 0
  let found ← executeGlob tree includes excludes includeDirs
  if !allowEmpty && found.length = 0 then
    Except.error "glob pattern(s) matched no files"
  else
    let sorted := sortStrings found
    Except.ok (sorted.map (fun m => if strStartsWith m "@" then ":" ++ m else m))


/-- One registration step of a BUILD evaluation: apply `AddTarget`,
keeping the package unchanged when the registration fails (whether the
evaluation then aborts or continues, the accumulated target set is the
same). -/
def applyRegister (p : Package) (nt : String × RuleInstance) : Package :=
  match p.AddTarget nt.1 nt.2 with
  | .ok p2 => p2
  | .error _ => p

/-- Adjacent-pairs sortedness under `strLe` (the order used by the
source's `sort.Strings`): the property the specification asserts of
the final result list. -/
def strSorted : List String → Bool
  | [] => true
  | [_] => true
  | x :: y :: r => strLe x y && strSorted (y :: r)
/-! ## Theorems -/

theorem addDirect_eq_dedupHashGo : ∀ (direct : List SVal) (m : SeenMap) (acc : List SVal),
    addDirect direct m acc = dedupHashGo m acc direct
  | [], _, _ => rfl
  | e :: rest, m, acc => by
      rcases hAS : alreadySeen m e with ⟨b, m1⟩
      cases b <;> simp [addDirect, dedupHashGo, hAS, addDirect_eq_dedupHashGo rest]

theorem dedupHashGo_append : ∀ (l1 l2 : List SVal) (m : SeenMap) (acc : List SVal),
    dedupHashGo m acc (l1 ++ l2) =
      dedupHashGo (dedupHashGo m acc l1).1 (dedupHashGo m acc l1).2 l2
  | [], _, _, _ => rfl
  | e :: rest, l2, m, acc => by
      rcases hAS : alreadySeen m e with ⟨b, m1⟩
      cases b <;> simp [dedupHashGo, hAS, dedupHashGo_append rest]

mutual
theorem walk_eq_dedupHashGo : ∀ (d : Depset) (order : Order) (m : SeenMap) (acc : List SVal),
    d.walk order m acc = dedupHashGo m acc (specTraverse order d)
  | .mk o direct ts et, order, m, acc => by
      by_cases h : order = .preorder
      · simp only [Depset.walk, specTraverse, h, if_true]
        rcases hAD : addDirect direct m acc with ⟨m1, a1⟩
        have hAD2 : dedupHashGo m acc direct = (m1, a1) := by
          rw [← addDirect_eq_dedupHashGo]; exact hAD
        rw [dedupHashGo_append, hAD2]
        exact addTransitive_eq_dedupHashGo ts .preorder m1 a1
      · simp only [Depset.walk, specTraverse, h, if_false]
        rcases hAT : DepsetList.addTransitive ts order m acc with ⟨m1, a1⟩
        have hAT2 : dedupHashGo m acc (specTraverseList order ts) = (m1, a1) := by
          rw [← addTransitive_eq_dedupHashGo]; exact hAT
        rw [dedupHashGo_append, hAT2]
        exact addDirect_eq_dedupHashGo direct m1 a1

theorem addTransitive_eq_dedupHashGo :
    ∀ (ts : DepsetList) (order : Order) (m : SeenMap) (acc : List SVal),
    DepsetList.addTransitive ts order m acc = dedupHashGo m acc (specTraverseList order ts)
  | .nil, _, _, _ => rfl
  | .cons t tl, order, m, acc => by
      simp only [DepsetList.addTransitive, specTraverseList]
      rcases hW : t.walk order m acc with ⟨m1, a1⟩
      have hW2 : dedupHashGo m acc (specTraverse order t) = (m1, a1) := by
        rw [← walk_eq_dedupHashGo]; exact hW
      rw [dedupHashGo_append, hW2]
      exact addTransitive_eq_dedupHashGo tl order m1 a1
end

/-- Reading a bucket after `bucketAdd`: the element lands in its own
bucket (the first with that key, the only kind either function
touches), all other buckets are untouched. -/
theorem bucketGet_bucketAdd (m : SeenMap) (k : Nat) (v : SVal) (h : Nat) :
    bucketGet (bucketAdd m k v) h =
      if k = h then bucketGet m h ++ [v] else bucketGet m h := by
  induction m with
  | nil =>
    by_cases hk : k = h
    · simp [bucketAdd, bucketGet, hk]
    · simp [bucketAdd, bucketGet, hk]
  | cons p tl ih =>
    obtain ⟨kp, vs⟩ := p
    by_cases hkp : kp = k
    · subst hkp
      by_cases hh : kp = h
      · simp [bucketAdd, bucketGet, hh]
      · simp [bucketAdd, bucketGet, hh]
    · by_cases hh : kp = h
      · subst hh
        simp only [bucketAdd, if_neg hkp, bucketGet, if_pos rfl]
        rw [if_neg (fun hkh : k = kp => hkp hkh.symm)]
        simp [bucketGet]
      · simp only [bucketAdd, if_neg hkp, bucketGet, if_neg hh, ih]

/-- The invariant tying the hash-bucketed seen-set to the plain list of
elements already emitted. -/
def SeenInv (m : SeenMap) (acc : List SVal) : Prop :=
  ∀ x h, x ∈ bucketGet m h ↔ (x ∈ acc ∧ hashKey x = h)

theorem seenInv_nil : SeenInv [] [] := by
  intro x h
  simp [bucketGet]

theorem any_svalEq_eq_true_iff (l : List SVal) (e : SVal) :
    (l.any (fun v => svalEq v e) = true) ↔ e ∈ l := by
  simp only [List.any_eq_true, svalEq_iff_eq]
  constructor
  · rintro ⟨v, hv, rfl⟩; exact hv
  · intro hv; exact ⟨e, hv, rfl⟩

/-- The hash-bucketed dedup machine computes exactly the plain
first-appearance-wins dedup. -/
theorem dedupHashGo_snd : ∀ (l : List SVal) (m : SeenMap) (acc : List SVal),
    SeenInv m acc → (dedupHashGo m acc l).2 = dedupGo acc l
  | [], _, _, _ => rfl
  | e :: rest, m, acc, hInv => by
      have hTest : ((bucketGet m (hashKey e)).any (fun v => svalEq v e)) =
          (acc.any (fun v => svalEq v e)) := by
        have h1 := any_svalEq_eq_true_iff (bucketGet m (hashKey e)) e
        have h2 := any_svalEq_eq_true_iff acc e
        have h3 : e ∈ bucketGet m (hashKey e) ↔ e ∈ acc := by
          rw [hInv e (hashKey e)]
          simp
        exact Bool.eq_iff_iff.mpr (h1.trans (h3.trans h2.symm))
      by_cases hSeen : acc.any (fun v => svalEq v e) = true
      · have hAS : alreadySeen m e = (true, m) := by
          simp only [alreadySeen, hTest, hSeen, if_true]
        simp only [dedupHashGo, dedupGo, hAS, hSeen, if_true]
        exact dedupHashGo_snd rest m acc hInv
      · have hb : (acc.any (fun v => svalEq v e)) = false := by
          simpa using hSeen
        have hAS : alreadySeen m e = (false, bucketAdd m (hashKey e) e) := by
          simp [alreadySeen, hTest, hb]
        simp only [dedupHashGo, dedupGo, hAS, hb, Bool.false_eq_true, if_false]
        refine dedupHashGo_snd rest _ (acc ++ [e]) ?_
        intro x h
        rw [bucketGet_bucketAdd]
        by_cases hh : hashKey e = h
        · rw [if_pos hh, List.mem_append, List.mem_singleton, hInv x h,
            List.mem_append, List.mem_singleton]
          constructor
          · rintro (⟨hxa, hxk⟩ | rfl)
            · exact ⟨Or.inl hxa, hxk⟩
            · exact ⟨Or.inr rfl, hh⟩
          · rintro ⟨hxa | rfl, hxk⟩
            · exact Or.inl ⟨hxa, hxk⟩
            · exact Or.inr rfl
        · rw [if_neg hh, hInv x h, List.mem_append, List.mem_singleton]
          constructor
          · rintro ⟨hxa, hxk⟩
            exact ⟨Or.inl hxa, hxk⟩
          · rintro ⟨hxa | rfl, hxk⟩
            · exact ⟨hxa, hxk⟩
            · exact absurd hxk hh

/-- The refinement, assembled: `Depset.ToList` produces exactly the
sequence the specification describes. -/
theorem ToList_eq_specToList (d : Depset) : d.ToList = specToList d := by
  have hwalk := walk_eq_dedupHashGo d d.order [] []
  have hsnd := dedupHashGo_snd (specTraverse d.order d) [] [] seenInv_nil
  unfold Depset.ToList specToList
  rcases hW : d.walk d.order [] [] with ⟨m1, a1⟩
  have ha1 : a1 = specDedup (specTraverse d.order d) := by
    have hh : (d.walk d.order [] []).2 = dedupGo [] (specTraverse d.order d) := by
      rw [hwalk]; exact hsnd
    rw [hW] at hh
    exact hh
  by_cases ht : d.order = .topological <;> simp [ht, ha1, specDedup]

/-! ### Claim C2: depset flatten order, global dedup, stability -/

/-- C2.  For every depset `d`, `d.ToList()` visits, for order
`preorder`, the direct elements left-to-right and then the transitive
children left-to-right; for `postorder` and `default`, the children
left-to-right and then the direct elements; for `topological`, the
postorder traversal reversed — with duplicates removed globally, the
first appearance winning, by element equality with a stable string-hash
fallback for unhashable elements (`ToList = specToList`, where
`specToList` spells these rules out and the walk's hash-bucketed seen
set is proved equivalent to plain first-appearance dedup by equality).
Repeated calls return the same sequence because `ToList` is a pure
function of the depset value.  In particular `A = depset([1,2])`,
`B = depset([2,3], transitive=[A], order="postorder")` gives
`B.to_list() == [1,2,3]`. -/
theorem depset_toList_order_and_dedup_c2 :
    (∀ d : Depset, d.ToList = specToList d) ∧
    ((NewDepset .default [SVal.intV 1, SVal.intV 2] DepsetList.nil).bind fun A =>
       (ParseOrder "postorder").bind fun o =>
         (NewDepset o [SVal.intV 2, SVal.intV 3]
             (DepsetList.cons A DepsetList.nil)).map Depset.ToList)
      = Except.ok [SVal.intV 1, SVal.intV 2, SVal.intV 3] :=
  ⟨ToList_eq_specToList, by rfl⟩

/-! ### Claim C7: depset order compatibility at construction -/

theorem checkTransitive_ok_compat : ∀ (ts : DepsetList) (order : Order) (et et2 : String),
    checkTransitive order et ts = .ok et2 →
    ∀ t ∈ ts.toListD, t.isEmpty = false → order.IsCompatible t.order = true
  | .nil, _, _, _, _, t, ht, _ => by simp [DepsetList.toListD] at ht
  | .cons t0 tl, order, et, et2, hok, t, ht, hne => by
      simp only [DepsetList.toListD, List.mem_cons] at ht
      by_cases he : t0.isEmpty = true
      · simp only [checkTransitive, he, Bool.not_true, Bool.false_eq_true, if_false] at hok
        rcases ht with rfl | ht
        · rw [he] at hne; cases hne
        · exact checkTransitive_ok_compat tl order et et2 hok t ht hne
      · have he2 : t0.isEmpty = false := by simpa using he
        simp only [checkTransitive, he2, Bool.not_false, if_true] at hok
        by_cases hc : order.IsCompatible t0.order = true
        · simp only [hc, Bool.not_true, Bool.false_eq_true, if_false] at hok
          rcases ht with rfl | ht
          · exact hc
          · by_cases het : et = ""
            · rw [if_pos het] at hok
              exact checkTransitive_ok_compat tl order _ et2 hok t ht hne
            · rw [if_neg het] at hok
              by_cases hty : (t0.elemType ≠ "" && et ≠ t0.elemType) = true
              · rw [if_pos hty] at hok; cases hok
              · rw [if_neg hty] at hok
                exact checkTransitive_ok_compat tl order et et2 hok t ht hne
        · have hcf : order.IsCompatible t0.order = false := by simpa using hc
          simp only [hcf, Bool.not_false, if_true] at hok
          cases hok

theorem checkTransitive_err_of_incompat : ∀ (ts : DepsetList) (order : Order) (et : String),
    (∃ t ∈ ts.toListD, t.isEmpty = false ∧ order.IsCompatible t.order = false) →
    ∃ e, checkTransitive order et ts = .error e
  | .nil, _, _, h => by simp [DepsetList.toListD] at h
  | .cons t0 tl, order, et, h => by
      rcases h with ⟨t, ht, hne, hinc⟩
      simp only [DepsetList.toListD, List.mem_cons] at ht
      by_cases he : t0.isEmpty = true
      · simp only [checkTransitive, he, Bool.not_true, Bool.false_eq_true, if_false]
        rcases ht with rfl | ht
        · rw [he] at hne; cases hne
        · exact checkTransitive_err_of_incompat tl order et ⟨t, ht, hne, hinc⟩
      · have he2 : t0.isEmpty = false := by simpa using he
        simp only [checkTransitive, he2, Bool.not_false, if_true]
        by_cases hc : order.IsCompatible t0.order = true
        · simp only [hc, Bool.not_true, Bool.false_eq_true, if_false]
          rcases ht with rfl | ht
          · rw [hc] at hinc; cases hinc
          · by_cases het : et = ""
            · rw [if_pos het]
              exact checkTransitive_err_of_incompat tl order _ ⟨t, ht, hne, hinc⟩
            · rw [if_neg het]
              by_cases hty : (t0.elemType ≠ "" && et ≠ t0.elemType) = true
              · rw [if_pos hty]; exact ⟨_, rfl⟩
              · rw [if_neg hty]
                exact checkTransitive_err_of_incompat tl order et ⟨t, ht, hne, hinc⟩
        · have hcf : order.IsCompatible t0.order = false := by simpa using hc
          simp only [hcf, Bool.not_false, if_true]
          exact ⟨_, rfl⟩

theorem exceptBind_ok {α β ε : Type} (a : α) (f : α → Except ε β) :
    (Except.ok a >>= f) = f a := rfl

theorem exceptBind_err {α β ε : Type} (e : ε) (f : α → Except ε β) :
    ((Except.error e : Except ε α) >>= f) = Except.error e := rfl

theorem NewDepset_ok_compat (order : Order) (direct : List SVal) (ts : DepsetList)
    (d : Depset) (hok : NewDepset order direct ts = .ok d) :
    ∀ t ∈ ts.toListD, t.isEmpty = false → order.IsCompatible t.order = true := by
  unfold NewDepset at hok
  cases hF : direct.foldlM checkAndSetType "" with
  | error e => rw [hF] at hok; simp only [exceptBind_err] at hok; cases hok
  | ok et =>
    rw [hF] at hok
    simp only [exceptBind_ok] at hok
    cases hC : checkTransitive order et ts with
    | error e => rw [hC] at hok; cases hok
    | ok et2 => exact checkTransitive_ok_compat ts order et et2 hC

theorem NewDepset_err_of_incompat (order : Order) (direct : List SVal) (ts : DepsetList)
    (h : ∃ t ∈ ts.toListD, t.isEmpty = false ∧ order.IsCompatible t.order = false) :
    ∃ e, NewDepset order direct ts = .error e := by
  unfold NewDepset
  cases hF : direct.foldlM checkAndSetType "" with
  | error e => exact ⟨e, rfl⟩
  | ok et =>
    simp only [exceptBind_ok]
    obtain ⟨e, hC⟩ := checkTransitive_err_of_incompat ts order et h
    rw [hC]
    exact ⟨e, rfl⟩

/-- C7.  Depset construction succeeds only when the requested order is
compatible with the order of every non-empty transitive child, where
compatibility holds exactly when the two orders are equal or one of
them is `default`; when an incompatible non-empty child exists the
construction fails.  In particular a `topological` depset over a
non-empty `postorder` (or `preorder`) child fails with the
order-incompatibility error. -/
theorem depset_order_compatibility_c7 :
    (∀ o o2 : Order, o.IsCompatible o2 = true ↔ (o = o2 ∨ o = .default ∨ o2 = .default)) ∧
    (∀ (order : Order) (direct : List SVal) (ts : DepsetList) (d : Depset),
       NewDepset order direct ts = .ok d →
       ∀ t ∈ ts.toListD, t.isEmpty = false → order.IsCompatible t.order = true) ∧
    (∀ (order : Order) (direct : List SVal) (ts : DepsetList),
       (∃ t ∈ ts.toListD, t.isEmpty = false ∧ order.IsCompatible t.order = false) →
       ∃ e, NewDepset order direct ts = .error e) ∧
    ((NewDepset .postorder [SVal.intV 1] DepsetList.nil).bind fun P =>
        NewDepset .topological [SVal.intV 2] (DepsetList.cons P DepsetList.nil))
      = Except.error "Order 'topological' is incompatible with order 'postorder'" ∧
    ((NewDepset .preorder [SVal.intV 1] DepsetList.nil).bind fun P =>
        NewDepset .topological [SVal.intV 2] (DepsetList.cons P DepsetList.nil))
      = Except.error "Order 'topological' is incompatible with order 'preorder'" :=
  ⟨by intro o o2; cases o <;> cases o2 <;> simp [Order.IsCompatible],
    NewDepset_ok_compat, NewDepset_err_of_incompat, by rfl, by rfl⟩

/-- Witness for C7: the hypotheses are satisfiable — a concrete
successful construction whose non-empty child is order-compatible, and
a concrete incompatible construction that fails. -/
theorem depset_order_compatibility_c7_witness :
    Order.default.IsCompatible Order.postorder = true ∧
    (∃ e, NewDepset .topological []
        (DepsetList.cons (Depset.mk .postorder [SVal.intV 1] DepsetList.nil "int")
          DepsetList.nil) = .error e) := by
  constructor
  · exact depset_order_compatibility_c7.2.1 .default []
      (DepsetList.cons (Depset.mk .postorder [SVal.intV 1] DepsetList.nil "int") DepsetList.nil)
      (Depset.mk .default []
        (DepsetList.cons (Depset.mk .postorder [SVal.intV 1] DepsetList.nil "int") DepsetList.nil)
        "int")
      (by rfl)
      (Depset.mk .postorder [SVal.intV 1] DepsetList.nil "int")
      (by simp [DepsetList.toListD]) (by rfl)
  · exact depset_order_compatibility_c7.2.2.1 .topological []
      (DepsetList.cons (Depset.mk .postorder [SVal.intV 1] DepsetList.nil "int") DepsetList.nil)
      ⟨Depset.mk .postorder [SVal.intV 1] DepsetList.nil "int",
        by simp [DepsetList.toListD], by rfl, by rfl⟩

/-! ### Claims C5, C9, C10: provider field validation and `init` routing -/

theorem mapSet_keys (m : List (String × SVal)) (k : String) (v : SVal) :
    ∀ x ∈ (mapSet m k v).map Prod.fst, x ∈ m.map Prod.fst ∨ x = k := by
  induction m with
  | nil => intro x hx; simp [mapSet] at hx; simp [hx]
  | cons p tl ih =>
    obtain ⟨k2, v2⟩ := p
    intro x hx
    by_cases hk : k2 = k
    · simp only [mapSet, if_pos hk] at hx
      simp only [List.map_cons, List.mem_cons] at hx ⊢
      rcases hx with rfl | hx
      · exact Or.inl (Or.inl rfl)
      · exact Or.inl (Or.inr hx)
    · simp only [mapSet, if_neg hk] at hx
      simp only [List.map_cons, List.mem_cons] at hx ⊢
      rcases hx with rfl | hx
      · exact Or.inl (Or.inl rfl)
      · rcases ih x hx with h | h
        · exact Or.inl (Or.inr h)
        · exact Or.inr h

/-- With no declared fields, the kwargs loop can never fail. -/
theorem kwargsFoldM_no_fields (p : Provider) (hf : p.fields = []) :
    ∀ (kwargs : List (String × SVal)) (acc : List (String × SVal)),
    ∃ values, kwargs.foldlM (pkwStep p) acc = .ok values
  | [], acc => ⟨acc, rfl⟩
  | kv :: rest, acc => by
      have hstep : pkwStep p acc kv = .ok (mapSet acc kv.1 kv.2) := by
        simp [pkwStep, hf]
      simp only [List.foldlM, hstep, exceptBind_ok]
      exact kwargsFoldM_no_fields p hf rest (mapSet acc kv.1 kv.2)

theorem providerKwargsValues_no_fields (p : Provider) (hf : p.fields = [])
    (kwargs : List (String × SVal)) :
    ∃ values, providerKwargsValues p kwargs = .ok values := by
  unfold providerKwargsValues
  exact kwargsFoldM_no_fields p hf kwargs []

/-- With declared fields and an offending keyword present, the kwargs
loop fails. -/
theorem kwargsFoldM_err_of_unknown (p : Provider) (hne : p.fields ≠ []) :
    ∀ (kwargs : List (String × SVal)) (acc : List (String × SVal)),
    (∃ k ∈ kwargs.map Prod.fst, k ∉ p.fields) →
    ∃ e, kwargs.foldlM (pkwStep p) acc = .error e
  | [], acc, h => by simp at h
  | kv :: rest, acc, h => by
      have hlen : p.fields.length > 0 := List.length_pos.mpr hne
      by_cases hk : kv.1 ∈ p.fields
      · have hstep : pkwStep p acc kv = .ok (mapSet acc kv.1 kv.2) := by
          simp [pkwStep, List.elem_iff.mpr hk] <;> exact fun _ => hk
        simp only [List.foldlM, hstep, exceptBind_ok]
        apply kwargsFoldM_err_of_unknown p hne rest
        rcases h with ⟨k, hkmem, hknot⟩
        simp only [List.map_cons, List.mem_cons] at hkmem
        rcases hkmem with rfl | hkmem
        · exact absurd hk hknot
        · exact ⟨k, hkmem, hknot⟩
      · have hstep : pkwStep p acc kv =
            .error (p.name ++ ": unexpected field \"" ++ kv.1 ++ "\"") := by
          have hc : p.fields.contains kv.1 = false := by simp [List.elem_iff, hk]
          simp [pkwStep, hc, hlen] <;> exact hk
        simp only [List.foldlM, hstep, exceptBind_err]
        exact ⟨_, rfl⟩

/-- With declared fields, every key the kwargs loop stores is a
declared field. -/
theorem kwargsFoldM_keys (p : Provider) (hne : p.fields ≠ []) :
    ∀ (kwargs : List (String × SVal)) (acc values : List (String × SVal)),
    kwargs.foldlM (pkwStep p) acc = .ok values →
    (∀ x ∈ acc.map Prod.fst, x ∈ p.fields) → ∀ x ∈ values.map Prod.fst, x ∈ p.fields
  | [], acc, values, hok, hacc => by
      simp only [List.foldlM] at hok
      cases hok
      exact hacc
  | kv :: rest, acc, values, hok, hacc => by
      have hlen : p.fields.length > 0 := List.length_pos.mpr hne
      by_cases hk : kv.1 ∈ p.fields
      · have hstep : pkwStep p acc kv = .ok (mapSet acc kv.1 kv.2) := by
          simp [pkwStep, List.elem_iff.mpr hk] <;> exact fun _ => hk
        simp only [List.foldlM, hstep, exceptBind_ok] at hok
        refine kwargsFoldM_keys p hne rest (mapSet acc kv.1 kv.2) values hok ?_
        intro x hx
        rcases mapSet_keys acc kv.1 kv.2 x hx with h | rfl
        · exact hacc x h
        · exact hk
      · have hstep : pkwStep p acc kv =
            .error (p.name ++ ": unexpected field \"" ++ kv.1 ++ "\"") := by
          have hc : p.fields.contains kv.1 = false := by simp [List.elem_iff, hk]
          simp [pkwStep, hc, hlen] <;> exact hk
        simp only [List.foldlM, hstep, exceptBind_err] at hok
        cases hok

/-- With declared fields, every key the init-dict loop stores is a
declared field. -/
theorem dictFoldM_keys (p : Provider) (hne : p.fields ≠ []) :
    ∀ (items : List (SVal × SVal)) (acc values : List (String × SVal)),
    items.foldlM (pdvStep p) acc = .ok values →
    (∀ x ∈ acc.map Prod.fst, x ∈ p.fields) → ∀ x ∈ values.map Prod.fst, x ∈ p.fields
  | [], acc, values, hok, hacc => by
      simp only [List.foldlM] at hok
      cases hok
      exact hacc
  | item :: rest, acc, values, hok, hacc => by
      have hlen : p.fields.length > 0 := List.length_pos.mpr hne
      cases hkey : item.1 with
      | strV keyStr =>
        by_cases hk : keyStr ∈ p.fields
        · have hstep : pdvStep p acc item = .ok (mapSet acc keyStr item.2) := by
            simp [pdvStep, hkey, List.elem_iff.mpr hk] <;> exact fun _ => hk
          simp only [List.foldlM, hstep, exceptBind_ok] at hok
          refine dictFoldM_keys p hne rest (mapSet acc keyStr item.2) values hok ?_
          intro x hx
          rcases mapSet_keys acc keyStr item.2 x hx with h | rfl
          · exact hacc x h
          · exact hk
        · have hstep : pdvStep p acc item =
              .error (p.name ++ ": unexpected field \"" ++ keyStr ++ "\"") := by
            have hc : p.fields.contains keyStr = false := by simp [List.elem_iff, hk]
            simp [pdvStep, hkey, hc, hlen] <;> exact hk
          simp only [List.foldlM, hstep, exceptBind_err] at hok
          cases hok
      | noneV =>
        have hstep : pdvStep p acc item =
            .error (p.name ++ ": init returned dict with non-string key: " ++ item.1.typeName) := by
          simp [pdvStep, hkey, SVal.typeName]
        simp only [List.foldlM, hstep, exceptBind_err] at hok
        cases hok
      | boolV b =>
        have hstep : pdvStep p acc item =
            .error (p.name ++ ": init returned dict with non-string key: " ++ item.1.typeName) := by
          simp [pdvStep, hkey, SVal.typeName]
        simp only [List.foldlM, hstep, exceptBind_err] at hok
        cases hok
      | intV n =>
        have hstep : pdvStep p acc item =
            .error (p.name ++ ": init returned dict with non-string key: " ++ item.1.typeName) := by
          simp [pdvStep, hkey, SVal.typeName]
        simp only [List.foldlM, hstep, exceptBind_err] at hok
        cases hok
      | listV xs =>
        have hstep : pdvStep p acc item =
            .error (p.name ++ ": init returned dict with non-string key: " ++ item.1.typeName) := by
          simp [pdvStep, hkey, SVal.typeName]
        simp only [List.foldlM, hstep, exceptBind_err] at hok
        cases hok
      | dictV ps =>
        have hstep : pdvStep p acc item =
            .error (p.name ++ ": init returned dict with non-string key: " ++ item.1.typeName) := by
          simp [pdvStep, hkey, SVal.typeName]
        simp only [List.foldlM, hstep, exceptBind_err] at hok
        cases hok

/-- C5 counterexample: the claim fails as stated for a provider created
with the declared (empty) field list `F = []` — the construction
`MyInfo(z=3)` succeeds although `"z" ∉ F`, so neither the rejection nor
`keys(I) ⊆ F` holds for every declared field list. -/
theorem provider_declared_fields_c5_counterexample :
    Provider.CallInternal ⟨"MyInfo", [], "", none⟩ [] [("z", SVal.intV 3)]
        = .ok ⟨⟨"MyInfo", [], "", none⟩, [("z", SVal.intV 3)]⟩ ∧
    ("z" ∈ ([] : List String)) = False :=
  ⟨by rfl, by simp⟩

/-- C5 (amended: for a provider with a *non-empty* declared field list
`F` and no `init`).  A keyword argument whose name is not in `F` makes
the construction fail with the `unexpected field` error, and every
successfully constructed instance carries only field names in `F`.  In
particular `MyInfo = provider(fields=["x","y"])` accepts
`MyInfo(x=1, y=2)` — an instance of type `MyInfo` with `a.x == 1` and
`a.y == 2` — and rejects `MyInfo(z=3)` with
`MyInfo: unexpected field "z"`. -/
theorem provider_declared_fields_c5 :
    (∀ (p : Provider) (kwargs : List (String × SVal)),
       p.init = none → p.fields ≠ [] →
       (∃ k ∈ kwargs.map Prod.fst, k ∉ p.fields) →
       ∃ e, Provider.CallInternal p [] kwargs = .error e) ∧
    (∀ (p : Provider) (kwargs : List (String × SVal)) (inst : ProviderInstance),
       p.init = none → p.fields ≠ [] →
       Provider.CallInternal p [] kwargs = .ok inst →
       ∀ k ∈ inst.keys, k ∈ p.fields) ∧
    (Provider.CallInternal ⟨"MyInfo", ["x", "y"], "", none⟩ []
        [("x", SVal.intV 1), ("y", SVal.intV 2)]
      = .ok ⟨⟨"MyInfo", ["x", "y"], "", none⟩, [("x", SVal.intV 1), ("y", SVal.intV 2)]⟩) ∧
    (ProviderInstance.typeName
        ⟨⟨"MyInfo", ["x", "y"], "", none⟩, [("x", SVal.intV 1), ("y", SVal.intV 2)]⟩
      = "MyInfo") ∧
    (ProviderInstance.attr
        ⟨⟨"MyInfo", ["x", "y"], "", none⟩, [("x", SVal.intV 1), ("y", SVal.intV 2)]⟩ "x"
      = .ok (SVal.intV 1)) ∧
    (Provider.CallInternal ⟨"MyInfo", ["x", "y"], "", none⟩ [] [("z", SVal.intV 3)]
      = .error "MyInfo: unexpected field \"z\"") := by
  refine ⟨?_, ?_, by rfl, by rfl, by rfl, by rfl⟩
  · intro p kwargs hinit hne hex
    obtain ⟨e, he⟩ := kwargsFoldM_err_of_unknown p hne kwargs [] hex
    refine ⟨e, ?_⟩
    unfold Provider.CallInternal
    rw [hinit]
    simp only [List.length_nil, gt_iff_lt, lt_self_iff_false, if_false]
    unfold providerKwargsValues
    rw [he]
  · intro p kwargs inst hinit hne hok k hk
    unfold Provider.CallInternal at hok
    rw [hinit] at hok
    simp only [List.length_nil, gt_iff_lt, lt_self_iff_false, if_false] at hok
    unfold providerKwargsValues at hok
    cases hV : kwargs.foldlM (pkwStep p) [] with
    | error e => rw [hV] at hok; cases hok
    | ok values =>
      rw [hV] at hok
      cases hok
      exact kwargsFoldM_keys p hne kwargs [] values hV (by simp) k hk

/-- Witness for C5: the amended theorem's hypotheses are satisfiable —
a concrete rejection and a concrete key-subset conclusion. -/
theorem provider_declared_fields_c5_witness :
    (∃ e, Provider.CallInternal ⟨"P", ["a"], "", none⟩ [] [("b", SVal.intV 0)] = .error e) ∧
    (∀ k ∈ ProviderInstance.keys ⟨⟨"P", ["a"], "", none⟩, [("a", SVal.intV 0)]⟩,
       k ∈ ["a"]) := by
  constructor
  · exact provider_declared_fields_c5.1 ⟨"P", ["a"], "", none⟩ [("b", SVal.intV 0)]
      rfl (by simp) ⟨"b", by simp, by simp⟩
  · exact provider_declared_fields_c5.2.1 ⟨"P", ["a"], "", none⟩ [("a", SVal.intV 0)]
      ⟨⟨"P", ["a"], "", none⟩, [("a", SVal.intV 0)]⟩ rfl (by simp) (by rfl)

/-- C9 counterexample: the claim's "the constructor expression
evaluates to a pair" fails for the `eval` package's `provider` builtin
(the one wired into the evaluator's `.bzl` environment): with an `init`
callback it still returns the provider alone, not a
`(provider, raw_constructor)` tuple. -/
theorem provider_init_pair_c9_counterexample :
    (evalProviderBuiltin "" (some [SVal.strV "x"])
        (some (fun _ _ => .ok (.dictV [])))).map ProviderResult.isPair
      = .ok false := by rfl

/-- C9 (amended: through the `builtins` package's `provider()` the
constructor expression with `init` evaluates to the
`(provider, raw_constructor)` pair, while the `eval` package's provider
builtin returns the provider alone).  Calling the provider routes the
positional and keyword arguments through `init` — an `init` error
propagates, a non-dict return fails, and a success wraps the returned
dict, whose keys are validated against the (non-empty) declared
fields.  The raw constructor accepts only keyword arguments and
bypasses `init` entirely (its result does not depend on it). -/
theorem provider_init_routing_c9 :
    (∀ (doc fields : SVal) (f : InitFn) (res : ProviderResult),
       builtinsProvider doc fields (some f) = .ok res → res.isPair = true) ∧
    (∀ (doc : String) (fields : Option (List SVal)) (init : Option InitFn)
       (res : ProviderResult),
       evalProviderBuiltin doc fields init = .ok res → res.isPair = false) ∧
    (∀ (p : Provider) (f : InitFn) (args : List SVal) (kwargs : List (String × SVal)) (e : String),
       p.init = some f → f args kwargs = .error e →
       Provider.CallInternal p args kwargs = .error e) ∧
    (∀ (p : Provider) (f : InitFn) (args : List SVal) (kwargs : List (String × SVal)) (v : SVal),
       p.init = some f → f args kwargs = .ok v → (∀ items, v ≠ .dictV items) →
       Provider.CallInternal p args kwargs
         = .error (p.name ++ ": init must return a dict, got " ++ v.typeName)) ∧
    (∀ (p : Provider) (f : InitFn) (args : List SVal) (kwargs : List (String × SVal))
       (inst : ProviderInstance),
       p.init = some f → Provider.CallInternal p args kwargs = .ok inst →
       ∃ items, f args kwargs = .ok (.dictV items) ∧
         providerDictValues p items = .ok inst.values ∧ inst.provider = p ∧
         (p.fields ≠ [] → ∀ k ∈ inst.keys, k ∈ p.fields)) ∧
    (∀ (p : Provider) (init1 init2 : Option InitFn) (args : List SVal)
       (kwargs : List (String × SVal)),
       (RawProviderConstructor.CallInternal ⟨{ p with init := init1 }⟩ args kwargs).map
           ProviderInstance.values
         = (RawProviderConstructor.CallInternal ⟨{ p with init := init2 }⟩ args kwargs).map
           ProviderInstance.values) ∧
    (∀ (p : Provider) (args : List SVal) (kwargs : List (String × SVal)),
       args ≠ [] → ∃ e, RawProviderConstructor.CallInternal ⟨p⟩ args kwargs = .error e) := by
  refine ⟨?_, ?_, ?_, ?_, ?_, ?_, ?_⟩
  · intro doc fields f res hok
    unfold builtinsProvider at hok
    cases hd : parseProviderDoc doc with
    | error e => rw [hd] at hok; cases hok
    | ok docStr =>
      rw [hd] at hok
      cases hf : parseProviderFields fields with
      | error e => rw [hf] at hok; cases hok
      | ok fieldList =>
        rw [hf] at hok
        cases hok
        rfl
  · intro doc fields init res hok
    unfold evalProviderBuiltin at hok
    cases fields with
    | none =>
      cases hok
      rfl
    | some xs =>
      have hok2 : (match evalFieldStrings xs with
          | Except.error e => (Except.error e : Except String ProviderResult)
          | Except.ok fieldNames =>
            Except.ok (ProviderResult.single (NewProvider "" fieldNames doc init)))
          = Except.ok res := hok
      cases hf : evalFieldStrings xs with
      | error e => rw [hf] at hok2; cases hok2
      | ok fieldNames =>
        rw [hf] at hok2
        cases hok2
        rfl
  · intro p f args kwargs e hinit herr
    obtain ⟨pn, pf, pd, pi⟩ := p
    change pi = some f at hinit
    subst hinit
    simp only [Provider.CallInternal]
    rw [herr]
  · intro p f args kwargs v hinit hokv hnd
    obtain ⟨pn, pf, pd, pi⟩ := p
    change pi = some f at hinit
    subst hinit
    simp only [Provider.CallInternal]
    rw [hokv]
    cases v with
    | dictV items => exact absurd rfl (hnd items)
    | noneV => rfl
    | boolV b => rfl
    | intV n => rfl
    | strV s => rfl
    | listV xs => rfl
  · intro p f args kwargs inst hinit hok
    obtain ⟨pn, pf, pd, pi⟩ := p
    change pi = some f at hinit
    subst hinit
    simp only [Provider.CallInternal] at hok
    cases hres : f args kwargs with
    | error e => rw [hres] at hok; cases hok
    | ok v =>
      rw [hres] at hok
      cases v with
      | dictV items =>
        have hok2 : (match providerDictValues ⟨pn, pf, pd, some f⟩ items with
            | Except.error e => (Except.error e : Except String ProviderInstance)
            | Except.ok values => Except.ok ⟨⟨pn, pf, pd, some f⟩, values⟩)
            = Except.ok inst := hok
        cases hdv : providerDictValues ⟨pn, pf, pd, some f⟩ items with
        | error e => rw [hdv] at hok2; cases hok2
        | ok values =>
          rw [hdv] at hok2
          cases hok2
          refine ⟨items, rfl, hdv, rfl, ?_⟩
          intro hne k hk
          unfold providerDictValues at hdv
          exact dictFoldM_keys ⟨pn, pf, pd, some f⟩ hne items [] values hdv (by simp) k hk
      | noneV => cases hok
      | boolV b => cases hok
      | intV n => cases hok
      | strV s => cases hok
      | listV xs => cases hok
  · intro p init1 init2 args kwargs
    have hstep : pkwStep { p with init := init1 } = pkwStep { p with init := init2 } := by
      funext values kv
      rfl
    unfold RawProviderConstructor.CallInternal providerKwargsValues
    by_cases hargs : args.length > 0
    · rw [if_pos hargs, if_pos hargs]
    · rw [if_neg hargs, if_neg hargs, hstep]
      cases kwargs.foldlM (pkwStep { p with init := init2 }) [] with
      | error e => rfl
      | ok values => rfl
  · intro p args kwargs hargs
    unfold RawProviderConstructor.CallInternal
    have hl : args.length > 0 := List.length_pos.mpr hargs
    rw [if_pos hl]
    exact ⟨_, rfl⟩

/-- Witness for C9: the amended theorem's hypotheses are satisfiable at
concrete inputs (a concrete `builtins` `provider(init=...)` call
returning a pair, and a concrete raw-constructor rejection of a
positional argument). -/
theorem provider_init_routing_c9_witness :
    ((builtinsProvider .noneV .noneV (some (fun _ _ => .ok (.dictV [])))).map
        ProviderResult.isPair = .ok true) ∧
    (∃ e, RawProviderConstructor.CallInternal ⟨⟨"P", [], "", none⟩⟩ [SVal.intV 1] []
        = .error e) := by
  constructor
  · have h := provider_init_routing_c9.1 .noneV .noneV (fun _ _ => .ok (.dictV []))
      (.pair (NewProvider "" [] "" (some (fun _ _ => .ok (.dictV []))))
        ⟨NewProvider "" [] "" (some (fun _ _ => .ok (.dictV [])))⟩)
      (by rfl)
    rw [show builtinsProvider .noneV .noneV (some (fun _ _ => .ok (.dictV [])))
        = .ok (.pair (NewProvider "" [] "" (some (fun _ _ => .ok (.dictV []))))
          ⟨NewProvider "" [] "" (some (fun _ _ => .ok (.dictV [])))⟩) from rfl]
    simp only [Except.map]
    rw [h]
  · exact provider_init_routing_c9.2.2.2.2.2.2 ⟨"P", [], "", none⟩ [SVal.intV 1] []
      (by simp)

/-- C10.  A provider whose declared field list is empty
(`provider(fields=[])`, or `fields` omitted — both produce the same
empty list) skips the `unexpected field` validation entirely: every
keyword-only construction succeeds, through the provider call and
through the raw constructor alike, whatever the supplied names; the
validation is guarded by a non-empty declared field list.  In
particular `MyInfo(z=3)` succeeds for `MyInfo = provider(fields=[])`. -/
theorem provider_empty_fields_c10 :
    (∀ (name doc : String) (kwargs : List (String × SVal)),
       ∃ values, Provider.CallInternal ⟨name, [], doc, none⟩ [] kwargs
         = .ok ⟨⟨name, [], doc, none⟩, values⟩) ∧
    (∀ (name doc : String) (init : Option InitFn) (kwargs : List (String × SVal)),
       ∃ inst, RawProviderConstructor.CallInternal ⟨⟨name, [], doc, init⟩⟩ [] kwargs
         = .ok inst) ∧
    (∀ doc : String, evalProviderBuiltin doc (some []) none
       = evalProviderBuiltin doc none none) ∧
    (builtinsProvider .noneV (.listV []) none = builtinsProvider .noneV .noneV none) ∧
    (Provider.CallInternal ⟨"MyInfo", [], "", none⟩ [] [("z", SVal.intV 3)]
       = .ok ⟨⟨"MyInfo", [], "", none⟩, [("z", SVal.intV 3)]⟩) := by
  refine ⟨?_, ?_, fun doc => rfl, rfl, by rfl⟩
  · intro name doc kwargs
    obtain ⟨values, hv⟩ :=
      providerKwargsValues_no_fields ⟨name, [], doc, none⟩ rfl kwargs
    refine ⟨values, ?_⟩
    unfold Provider.CallInternal
    simp only [List.length_nil, gt_iff_lt, lt_self_iff_false, if_false]
    rw [hv]
  · intro name doc init kwargs
    obtain ⟨values, hv⟩ :=
      providerKwargsValues_no_fields ⟨name, [], doc, init⟩ rfl kwargs
    refine ⟨⟨⟨name, [], doc, init⟩, values⟩, ?_⟩
    unfold RawProviderConstructor.CallInternal
    simp only [List.length_nil, gt_iff_lt, lt_self_iff_false, if_false]
    rw [hv]
    rfl

/-! ### Claim C1: the export hook is never invoked -/

/-- C1 (code_bug).  The specification says a rule class (or provider or
aspect) assigned to a top-level identifier is exported — named and
frozen — by the evaluator, so that a rule class bound at top level is
callable from a BUILD file.  The code has the machinery
(`RuleClass.SetName`, the `exported` flag, the `ExportableValue`
interface) but never invokes it: `EvalBzl` returns the host execution's
globals unchanged, so the rule class stays unexported and calling it
fails with `rule has not been exported by a bzl file` — and even
`SetName` itself would not freeze the value.  Had the hook run
(`SetName "my_rule"`), the same call would succeed. -/
theorem rule_export_hook_missing_c1 :
    (EvalBzl "test.bzl"
        (.ok [("my_rule", .ruleClassV (NewRuleClass "" "_impl" [] false false ""))])
      = .ok ⟨[("my_rule", .ruleClassV (NewRuleClass "" "_impl" [] false false ""))]⟩) ∧
    (NewRuleClass "" "_impl" [] false false "").exported = false ∧
    ((NewRuleClass "" "_impl" [] false false "").CallInternal [] [("name", SVal.strV "t")]
      = .error "rule has not been exported by a bzl file") ∧
    ((NewRuleClass "" "_impl" [] false false "").SetName "my_rule").exported = true ∧
    ((NewRuleClass "" "_impl" [] false false "").SetName "my_rule").frozen = false ∧
    (∃ inst, ((NewRuleClass "" "_impl" [] false false "").SetName "my_rule").CallInternal
        [] [("name", SVal.strV "t")] = .ok inst) :=
  ⟨rfl, rfl, rfl, rfl, rfl, ⟨_, rfl⟩⟩

/-! ### Claim C4: duplicate target names -/

theorem lookup_isSome_iff_mem_keys {α : Type} (l : List (String × α)) (k : String) :
    (l.lookup k).isSome = true ↔ k ∈ l.map Prod.fst := by
  induction l with
  | nil => simp [List.lookup]
  | cons p tl ih =>
    obtain ⟨k2, v2⟩ := p
    by_cases hk : k2 = k
    · subst hk
      simp [List.lookup]
    · have hb : (k == k2) = false := beq_eq_false_iff_ne.mpr (fun h => hk h.symm)
      simp only [List.lookup, hb, List.map_cons, List.mem_cons]
      rw [ih]
      constructor
      · exact Or.inr
      · rintro (rfl | h)
        · exact absurd rfl hk
        · exact h

theorem AddTarget_keys (p : Package) (name : String) (t : RuleInstance) (p2 : Package)
    (h : p.AddTarget name t = .ok p2) :
    p2.targets.map Prod.fst = p.targets.map Prod.fst ++ [name] := by
  unfold Package.AddTarget at h
  by_cases hl : (p.targets.lookup name).isSome = true
  · rw [if_pos hl] at h; cases h
  · rw [if_neg hl] at h
    cases h
    simp

theorem applyRegister_nodup (p : Package) (nt : String × RuleInstance)
    (h : (p.targets.map Prod.fst).Nodup) :
    ((applyRegister p nt).targets.map Prod.fst).Nodup := by
  unfold applyRegister
  cases hA : p.AddTarget nt.1 nt.2 with
  | error e => exact h
  | ok p2 =>
    rw [AddTarget_keys p nt.1 nt.2 p2 hA]
    unfold Package.AddTarget at hA
    by_cases hl : (p.targets.lookup nt.1).isSome = true
    · rw [if_pos hl] at hA; cases hA
    · rw [if_neg hl] at hA
      have hmem : nt.1 ∉ p.targets.map Prod.fst := by
        rw [← lookup_isSome_iff_mem_keys]
        simpa using hl
      refine List.Nodup.append h (by simp) ?_
      intro a ha hb
      simp only [List.mem_singleton] at hb
      subst hb
      exact hmem ha

theorem foldRegister_nodup (reqs : List (String × RuleInstance)) :
    ∀ (p : Package), (p.targets.map Prod.fst).Nodup →
    ((reqs.foldl applyRegister p).targets.map Prod.fst).Nodup := by
  induction reqs with
  | nil => intro p h; exact h
  | cons nt rest ih =>
    intro p h
    exact ih (applyRegister p nt) (applyRegister_nodup p nt h)

/-- C4.  Registering a target whose name is already registered in the
package fails with the `duplicate target name` error and leaves the
package's target set unchanged (the functional registration step keeps
the old package on failure); consequently the names accumulated by any
sequence of registrations into a fresh package are pairwise
distinct.  The thread-level `RegisterTarget` rejects the duplicate the
same way. -/
theorem duplicate_target_rejection_c4 :
    (∀ (p : Package) (name : String) (t : RuleInstance),
       name ∈ p.targets.map Prod.fst →
       p.AddTarget name t
         = .error ("duplicate target name \"" ++ name ++ "\" in package \"" ++ p.name ++ "\"") ∧
       applyRegister p (name, t) = p) ∧
    (∀ (root buildFile : String) (reqs : List (String × RuleInstance)),
       ((reqs.foldl applyRegister (NewPackage root buildFile)).targets.map Prod.fst).Nodup) ∧
    (∀ (st : ThreadState) (t : RuleInstance) (pkg : Package),
       st.pkg = some pkg → t.name ∈ pkg.targets.map Prod.fst →
       ∃ e, RegisterTarget st t = .error e) := by
  refine ⟨?_, ?_, ?_⟩
  · intro p name t hmem
    have hl : (p.targets.lookup name).isSome = true :=
      (lookup_isSome_iff_mem_keys p.targets name).mpr hmem
    have herr : p.AddTarget name t
        = .error ("duplicate target name \"" ++ name ++ "\" in package \"" ++ p.name ++ "\"") := by
      unfold Package.AddTarget
      rw [if_pos hl]
    refine ⟨herr, ?_⟩
    unfold applyRegister
    rw [herr]
  · intro root buildFile reqs
    refine foldRegister_nodup reqs (NewPackage root buildFile) ?_
    simp [NewPackage]
  · intro st t pkg hpkg hmem
    have hl : (pkg.targets.lookup t.name).isSome = true :=
      (lookup_isSome_iff_mem_keys pkg.targets t.name).mpr hmem
    have herr : pkg.AddTarget t.name t
        = .error ("duplicate target name \"" ++ t.name ++ "\" in package \"" ++ pkg.name ++ "\"") := by
      unfold Package.AddTarget
      rw [if_pos hl]
    unfold RegisterTarget
    rw [hpkg]
    simp only [herr]
    exact ⟨_, rfl⟩

/-- Witness for C4: concrete duplicate registrations are rejected. -/
theorem duplicate_target_rejection_c4_witness :
    (Package.AddTarget
        ⟨"pkg", "", "pkg/BUILD", [("t", ⟨NewRuleClass "" "i" [] false false "", "t", []⟩)],
         [], false, "", []⟩
        "t" ⟨NewRuleClass "" "i" [] false false "", "t", []⟩
      = .error "duplicate target name \"t\" in package \"pkg\"") ∧
    (∃ e, RegisterTarget
        ⟨some ⟨"pkg", "", "pkg/BUILD",
           [("t", ⟨NewRuleClass "" "i" [] false false "", "t", []⟩)], [], false, "", []⟩, none⟩
        ⟨NewRuleClass "" "i" [] false false "", "t", []⟩ = .error e) := by
  constructor
  · exact (duplicate_target_rejection_c4.1 _ "t" ⟨NewRuleClass "" "i" [] false false "", "t", []⟩
      (by simp)).1
  · exact duplicate_target_rejection_c4.2.2 _ ⟨NewRuleClass "" "i" [] false false "", "t", []⟩
      _ rfl (by simp)

/-! ### Claim C6: label parsing validation -/

theorem strStartsWith_slashslash_not_at (s : String)
    (h : strStartsWith s "//" = true) : strStartsWith s "@" = false := by
  unfold strStartsWith at h ⊢
  rw [show "//".toList = ['/', '/'] from rfl] at h
  rw [show "@".toList = ['@'] from rfl]
  cases hs : s.toList with
  | nil => rw [hs] at h; simp [List.isPrefixOf] at h
  | cons c tl =>
    rw [hs] at h
    simp only [List.isPrefixOf, Bool.and_eq_true, beq_iff_eq] at h
    obtain ⟨rfl, -⟩ := h
    simp [List.isPrefixOf]

/-- C6 (corrected).  The specification says `ParseLabel` validates
labels, rejecting an empty target name and `..` path segments.  The
code only checks the prefix shape: an `@`-form label without `//`
fails with `missing //`, a label starting with neither `//` nor `@`
fails with `must start with // or @`, and every other input parses
unconditionally — the empty target name of `//pkg:` and the `..`
segment of `//a/../b:c` are both accepted. -/
theorem label_validation_c6 :
    (∀ s, strStartsWith s "@" = true → substrIndex s "//" = none →
       ParseLabel s = .error ("invalid label \"" ++ s ++ "\": missing //")) ∧
    (∀ s, strStartsWith s "@" = false → strStartsWith s "//" = false →
       ParseLabel s = .error ("invalid label \"" ++ s ++ "\": must start with // or @")) ∧
    (∀ s idx, strStartsWith s "@" = true → substrIndex s "//" = some idx →
       ParseLabel s = .ok (parseLabelBody (strSlice s 1 idx) (strFrom (strFrom s idx) 2))) ∧
    (∀ s, strStartsWith s "//" = true →
       ParseLabel s = .ok (parseLabelBody "" (strFrom s 2))) ∧
    ParseLabel "//pkg:" = .ok ⟨"", "pkg", "", false⟩ ∧
    ParseLabel "//a/../b:c" = .ok ⟨"", "a/../b", "c", false⟩ := by
  refine ⟨?_, ?_, ?_, ?_, rfl, rfl⟩
  · intro s h1 h2
    simp [ParseLabel, h1, h2]
  · intro s h1 h2
    simp [ParseLabel, h1, h2]
  · intro s idx h1 h2
    simp [ParseLabel, h1, h2]
  · intro s h
    simp [ParseLabel, strStartsWith_slashslash_not_at s h, h]

/-- Witness for C6 at concrete labels. -/
theorem label_validation_c6_witness :
    ParseLabel "@r" = .error "invalid label \"@r\": missing //" ∧
    ParseLabel "pkg:t" = .error "invalid label \"pkg:t\": must start with // or @" ∧
    ParseLabel "@r//p:t" = .ok (parseLabelBody (strSlice "@r//p:t" 1 2) (strFrom (strFrom "@r//p:t" 2) 2)) ∧
    ParseLabel "//p/q" = .ok (parseLabelBody "" (strFrom "//p/q" 2)) :=
  ⟨label_validation_c6.1 "@r" rfl rfl,
   label_validation_c6.2.1 "pkg:t" rfl rfl,
   label_validation_c6.2.2.1 "@r//p:t" 2 rfl rfl,
   label_validation_c6.2.2.2.1 "//p/q" rfl⟩

/-- C6 counterexample to the literal claim: a label with an empty
target name parses successfully instead of being rejected. -/
theorem label_validation_c6_counterexample :
    ParseLabel "//pkg2:" = .ok ⟨"", "pkg2", "", false⟩ ∧
    ParseLabel "//x/../y:z" = .ok ⟨"", "x/../y", "z", false⟩ := ⟨rfl, rfl⟩

/-! ### Claim C3: load cycle detection -/

/-- C3.  `Load` resolves the module, then checks the thread's load
stack: if the resolved label is already on the stack it fails with a
`CycleError` carrying the module and the ordered stack extended with
the repeated label — before consulting or touching the cache, whose
content is irrelevant and unchanged.  The error's message renders the
ordered stack.  Concretely, a self-load produces
`Starlark load cycle: [//:b.bzl //:a.bzl //:a.bzl]`. -/
theorem load_cycle_detection_c3 :
    (∀ (repoMapping : List (String × String)) (repoRoot currentPkg currentRepo : String)
       (exec : String → String → List String → Except String Globals)
       (loadStack : List String) (cache : LoadCache) (module label path : String),
       resolveModule repoMapping repoRoot currentPkg currentRepo module = .ok (label, path) →
       label ∈ loadStack →
       loaderLoad repoMapping repoRoot currentPkg currentRepo exec loadStack cache module
         = (.error (.cycle ⟨module, loadStack ++ [label]⟩), cache)) ∧
    (loaderLoad [] "" "" "" (fun _ _ _ => .ok []) ["//:b.bzl", "//:a.bzl"]
        [("//:x.bzl", ⟨[], none⟩)] "//:a.bzl"
      = (.error (.cycle ⟨"//:a.bzl", ["//:b.bzl", "//:a.bzl", "//:a.bzl"]⟩),
         [("//:x.bzl", ⟨[], none⟩)])) ∧
    ((CycleError.mk "//:a.bzl" ["//:b.bzl", "//:a.bzl", "//:a.bzl"]).message
      = "Starlark load cycle: [//:b.bzl //:a.bzl //:a.bzl]") := by
  refine ⟨?_, rfl, rfl⟩
  intro repoMapping repoRoot currentPkg currentRepo exec loadStack cache module label path hres hmem
  simp only [loaderLoad, hres]
  rw [if_pos hmem]

/-- Witness for C3: the cycle branch at a concrete self-load. -/
theorem load_cycle_detection_c3_witness :
    loaderLoad [] "" "" "" (fun _ _ _ => .ok []) ["//:a.bzl"] [] "//:a.bzl"
      = (.error (.cycle ⟨"//:a.bzl", ["//:a.bzl", "//:a.bzl"]⟩), []) :=
  load_cycle_detection_c3.1 [] "" "" "" (fun _ _ _ => .ok []) ["//:a.bzl"] []
    "//:a.bzl" "//:a.bzl" "a.bzl" rfl (by simp)

/-! ### Claim C8: recursive glob -/

theorem charListLe_total : ∀ (x y : List Char), charListLe x y = true ∨ charListLe y x = true
  | [], _ => Or.inl rfl
  | _ :: _, [] => Or.inr rfl
  | a :: as, b :: bs => by
    by_cases h : a = b
    · subst h
      simpa [charListLe] using charListLe_total as bs
    · rcases lt_or_gt_of_ne h with hlt | hgt
      · left
        simp [charListLe, h, hlt]
      · right
        have hne : b ≠ a := fun hb => h hb.symm
        simp [charListLe, hne]
        exact hgt

theorem strLe_total (a b : String) : strLe a b = true ∨ strLe b a = true :=
  charListLe_total a.toList b.toList

theorem strSorted_insertStr (x : String) :
    ∀ (l : List String), strSorted l = true → strSorted (insertStr x l) = true
  | [], _ => rfl
  | y :: ys, h => by
    have hy : strSorted ys = true := by
      cases ys with
      | nil => rfl
      | cons z zs =>
        have h2 := h
        simp only [strSorted, Bool.and_eq_true] at h2
        exact h2.2
    by_cases hxy : strLe x y = true
    · unfold insertStr
      rw [if_pos hxy]
      show strSorted (x :: y :: ys) = true
      simp only [strSorted, Bool.and_eq_true]
      exact ⟨hxy, h⟩
    · unfold insertStr
      rw [if_neg hxy]
      have hyx : strLe y x = true := (strLe_total x y).resolve_left hxy
      have hins := strSorted_insertStr x ys hy
      cases ys with
      | nil =>
        show strSorted (y :: insertStr x []) = true
        simp [insertStr, strSorted, hyx]
      | cons z zs =>
        have hyz : strLe y z = true := by
          simp only [strSorted, Bool.and_eq_true] at h
          exact h.1
        show strSorted (y :: insertStr x (z :: zs)) = true
        by_cases hxz : strLe x z = true
        · simp only [insertStr, if_pos hxz] at hins ⊢
          simp only [strSorted, Bool.and_eq_true] at hins ⊢
          exact ⟨hyx, hins⟩
        · simp only [insertStr, if_neg hxz] at hins ⊢
          simp only [strSorted, Bool.and_eq_true] at hins ⊢
          exact ⟨hyz, hins⟩

theorem strSorted_sortStrings : ∀ (l : List String), strSorted (sortStrings l) = true
  | [] => rfl
  | x :: xs => strSorted_insertStr x (sortStrings xs) (strSorted_sortStrings xs)

theorem insertStr_subset (x y : String) :
    ∀ (l : List String), y ∈ insertStr x l → y = x ∨ y ∈ l
  | [], h => by
    unfold insertStr at h
    simp only [List.mem_singleton] at h
    exact Or.inl h
  | z :: zs, h => by
    unfold insertStr at h
    by_cases hxz : strLe x z = true
    · rw [if_pos hxz] at h
      simp only [List.mem_cons] at h
      rcases h with rfl | h
      · exact Or.inl rfl
      · exact Or.inr (List.mem_cons.mpr h)
    · rw [if_neg hxz] at h
      simp only [List.mem_cons] at h
      rcases h with rfl | h
      · exact Or.inr (List.mem_cons_self _ _)
      · rcases insertStr_subset x y zs h with h2 | h2
        · exact Or.inl h2
        · exact Or.inr (List.mem_cons_of_mem _ h2)

theorem sortStrings_subset : ∀ (l : List String) (x : String), x ∈ sortStrings l → x ∈ l
  | [], _, h => by cases h
  | a :: as, x, h => by
    rcases insertStr_subset a x (sortStrings as) h with h2 | h2
    · exact h2 ▸ List.mem_cons_self _ _
    · exact List.mem_cons_of_mem _ (sortStrings_subset as x h2)

theorem map_rewriteAt_id : ∀ (l : List String), (∀ m ∈ l, strStartsWith m "@" = false) →
    l.map (fun m => if strStartsWith m "@" then ":" ++ m else m) = l
  | [], _ => rfl
  | x :: xs, h => by
    have hx : strStartsWith x "@" = false := h x (List.mem_cons_self x xs)
    have hxs := map_rewriteAt_id xs (fun m hm => h m (List.mem_cons_of_mem x hm))
    simp [hx, hxs]

theorem walkEmit_mem (rel : List String) (d : Bool) (suf : String) (incl : Bool)
    (l : List String) (h : l ∈ walkEmit rel d suf incl) : l = rel ∧ rel ≠ [] := by
  unfold walkEmit at h
  by_cases h0 : rel = []
  · rw [if_pos h0] at h
    cases h
  · rw [if_neg h0] at h
    by_cases h1 : (d && !incl) = true
    · rw [if_pos h1] at h
      cases h
    · rw [if_neg h1] at h
      by_cases h2 : (decide (suf ≠ "") && !globMatch suf.toList (rel.getLastD "").toList) = true
      · rw [if_pos h2] at h
        cases h
      · rw [if_neg h2] at h
        simp only [List.mem_singleton] at h
        exact ⟨h, h0⟩

mutual
theorem walkNode_ne_nil (startRel : List String) (suf : String) (incl : Bool) :
    ∀ (n : FsNode) (rel : List String), [] ∉ walkNode startRel suf incl n rel
  | .file _, rel => fun h => by
    rcases walkEmit_mem rel false suf incl [] h with ⟨heq, hne⟩
    exact hne heq.symm
  | .dir name children, rel => fun h => by
    unfold walkNode at h
    by_cases hb : (hasBuildEntry children && decide (rel ≠ startRel)) = true
    · rw [if_pos hb] at h
      cases h
    · rw [if_neg hb] at h
      rcases List.mem_append.mp h with h1 | h1
      · rcases walkEmit_mem rel true suf incl [] h1 with ⟨heq, hne⟩
        exact hne heq.symm
      · exact walkChildren_ne_nil startRel suf incl children rel h1
theorem walkChildren_ne_nil (startRel : List String) (suf : String) (incl : Bool) :
    ∀ (cs : List FsNode) (rel : List String), [] ∉ walkChildren startRel suf incl cs rel
  | [], _ => fun h => by cases h
  | c :: cs, rel => fun h => by
    unfold walkChildren at h
    rcases List.mem_append.mp h with h1 | h1
    · exact walkNode_ne_nil startRel suf incl c (rel ++ [c.name]) h1
    · exact walkChildren_ne_nil startRel suf incl cs rel h1
end

theorem matchRecursivePattern_ne_nil (tree : FsNode) (pattern : String) (incl : Bool) :
    [] ∉ matchRecursivePattern tree pattern incl := by
  intro h
  unfold matchRecursivePattern at h
  rcases hS : splitAtStars pattern with ⟨rawPre, rawSuf⟩
  rw [hS] at h
  have h2 : [] ∈ (match findNode tree
        (if removeTrailingSlash rawPre = "" then []
         else splitOnSlash (removeTrailingSlash rawPre)) with
      | none => ([] : List (List String))
      | some start =>
        walkNode (if removeTrailingSlash rawPre = "" then []
            else splitOnSlash (removeTrailingSlash rawPre))
          (removeLeadingSlash (rawSuf.getD "")) incl start
          (if removeTrailingSlash rawPre = "" then []
           else splitOnSlash (removeTrailingSlash rawPre))) := h
  rcases hF : findNode tree (if removeTrailingSlash rawPre = "" then []
      else splitOnSlash (removeTrailingSlash rawPre)) with _ | start
  · rw [hF] at h2
    cases h2
  · rw [hF] at h2
    exact walkNode_ne_nil _ _ incl start _ h2

theorem walkNode_skip_subpackage (startRel : List String) (suf : String) (incl : Bool)
    (name : String) (children : List FsNode) (rel : List String)
    (hb : hasBuildEntry children = true) (hne : rel ≠ startRel) :
    walkNode startRel suf incl (.dir name children) rel = [] := by
  unfold walkNode
  rw [if_pos]
  simp [hb, hne]

theorem glob_ok_shape (tree : FsNode) (includes excludes : List String) (ed : Int)
    (ae : Bool) (found res : List String)
    (hexec : executeGlob tree includes excludes (decide (ed = 0)) = .ok found)
    (hglob : glob tree includes excludes ed ae = .ok res) :
    res = (sortStrings found).map
      (fun m => if strStartsWith m "@" then ":" ++ m else m) := by
  unfold glob at hglob
  simp only [hexec, exceptBind_ok] at hglob
  by_cases hc : (!ae && decide (found.length = 0)) = true
  · rw [if_pos hc] at hglob
    cases hglob
  · rw [if_neg hc] at hglob
    exact (Except.ok.injEq _ _ ▸ hglob).symm

/-- C8 (corrected).  For `**` patterns `matchPattern` routes to the
recursive walk, which is rooted at the pattern's prefix directory;
any directory other than the walk's start that contains a `BUILD` or
`BUILD.bazel` entry is skipped with its entire subtree; the package
directory itself is never among the matches; and the result list is
sorted *before* the final rewrite that prefixes `@`-initial matches
with `:` — so the delivered list is the sorted match set only when no
match starts with `@`, and the spec's unconditional sortedness fails
(see the counterexample).  The spec's concrete example holds:
`glob(["**/*.cc"])` over `pkg/foo.cc`, `pkg/sub/BUILD`,
`pkg/sub/bar.cc` returns `["foo.cc"]`. -/
theorem glob_recursive_walk_c8 :
    (∀ (tree : FsNode) (pattern : String) (incl : Bool),
       containsSub pattern "**" = true →
       matchPattern tree pattern incl = matchRecursivePattern tree pattern incl) ∧
    (∀ (startRel : List String) (suf : String) (incl : Bool) (name : String)
       (children : List FsNode) (rel : List String),
       hasBuildEntry children = true → rel ≠ startRel →
       walkNode startRel suf incl (.dir name children) rel = []) ∧
    (∀ (tree : FsNode) (pattern : String) (incl : Bool),
       [] ∉ matchRecursivePattern tree pattern incl) ∧
    (∀ l : List String, strSorted (sortStrings l) = true) ∧
    (∀ (tree : FsNode) (includes excludes : List String) (ed : Int) (ae : Bool)
       (found res : List String),
       executeGlob tree includes excludes (decide (ed = 0)) = .ok found →
       glob tree includes excludes ed ae = .ok res →
       res = (sortStrings found).map
         (fun m => if strStartsWith m "@" then ":" ++ m else m)) ∧
    (∀ l : List String, (∀ m ∈ l, strStartsWith m "@" = false) →
       (sortStrings l).map (fun m => if strStartsWith m "@" then ":" ++ m else m)
         = sortStrings l) ∧
    glob (FsNode.dir "pkg" [FsNode.file "foo.cc",
        FsNode.dir "sub" [FsNode.file "BUILD", FsNode.file "bar.cc"]])
      ["**/*.cc"] [] 1 true = .ok ["foo.cc"] := by
  refine ⟨?_, walkNode_skip_subpackage, matchRecursivePattern_ne_nil,
    strSorted_sortStrings, glob_ok_shape, ?_, by rfl⟩
  · intro tree pattern incl h
    simp [matchPattern, h]
  · intro l hall
    exact map_rewriteAt_id (sortStrings l)
      (fun m hm => hall m (sortStrings_subset l m hm))

/-- Witness for C8 at concrete inputs: the routing, the subpackage
skip, the post-glob shape and the `@`-free identity rewrite, each
instantiated and discharged by evaluation. -/
theorem glob_recursive_walk_c8_witness :
    (matchPattern (FsNode.dir "p" [FsNode.file "a"]) "**" false
       = matchRecursivePattern (FsNode.dir "p" [FsNode.file "a"]) "**" false) ∧
    (walkNode [] "" false (.dir "s" [FsNode.file "BUILD", FsNode.file "c.cc"]) ["s"] = []) ∧
    (["a"] = (sortStrings ["a"]).map
       (fun m => if strStartsWith m "@" then ":" ++ m else m)) ∧
    ((sortStrings ["b", "a"]).map
       (fun m => if strStartsWith m "@" then ":" ++ m else m) = sortStrings ["b", "a"]) :=
  ⟨glob_recursive_walk_c8.1 (FsNode.dir "p" [FsNode.file "a"]) "**" false rfl,
   glob_recursive_walk_c8.2.1 [] "" false "s" [FsNode.file "BUILD", FsNode.file "c.cc"]
     ["s"] rfl (by simp),
   glob_recursive_walk_c8.2.2.2.2.1 (FsNode.dir "p" [FsNode.file "a"]) ["**"] [] 1 true
     ["a"] ["a"] rfl rfl,
   glob_recursive_walk_c8.2.2.2.2.2.1 ["b", "a"] (by decide)⟩

/-- C8 counterexample to the literal claim: the `:`-for-`@` rewrite
runs after the sort, so with matches `;y` and `@x` the delivered list
`[";y", ":@x"]` is not sorted (`:` orders before `;`). -/
theorem glob_recursive_walk_c8_counterexample :
    glob (FsNode.dir "pkg" [FsNode.file ";y", FsNode.file "@x"]) ["**"] [] 1 true
      = .ok [";y", ":@x"] ∧
    strSorted [";y", ":@x"] = false := ⟨rfl, rfl⟩
